import Mathlib

/-!
Verification of the Clary AI workflow execution engine
(src/api/app/ml/agents/workflow_executor.py and
src/api/app/services/workflow_service.py).

Modelling conventions:
* Python dict/list/str/number payloads are embedded as the inductive `PyVal`;
  Python truthiness is `PyVal.truthy`; `dict.get(k)` is `pyGet`,
  `dict.get(k, d)` is `pyGetD`.  Floats are modelled as rationals (no claim
  depends on float rounding).
* Raising an exception is modelled as `Except.error msg`.
* Timestamps (`started_at`, `completed_at`, `updated_at`) are not modelled:
  no claim mentions them.
* The task/workflow data model (`app/models/workflow.py`: `TaskStatus`,
  `TaskType`, `Task.can_execute`, `TaskDependency`) is not present under the
  repository sources; those definitions are modelled from the spec where
  marked.
-/

/-- Status enumeration for tasks and workflows.  Modelled from the spec:
`app/models/workflow.py` (`TaskStatus`) is absent from the sources; the spec
fixes the set Pending, Running, Completed, Failed. -/
inductive TaskStatus where
  | pending
  | running
  | completed
  | failed
  deriving DecidableEq

/-- Task kind enumeration.  Modelled from the spec and the executor registry
keys in `WorkflowExecutor.__init__`: the closed set of eight stages. -/
inductive TaskType where
  | preprocess
  | extract_text
  | analyze_layout
  | understand_document
  | extract_fields
  | extract_tables
  | validate_results
  | postprocess
  deriving DecidableEq

/-- A Python-like value: the payloads stored in task params and results. -/
inductive PyVal where
  | str : String → PyVal
  | num : Rat → PyVal
  | bool : Bool → PyVal
  | pnone : PyVal
  | list : List PyVal → PyVal
  | dict : List (String × PyVal) → PyVal

/-- Python truthiness of a value. -/
def PyVal.truthy : PyVal → Bool
  | .str s => !s.isEmpty
  | .num q => q ≠ 0
  | .bool b => b
  | .pnone => false
  | .list l => !l.isEmpty
  | .dict l => !l.isEmpty

/-- Association-list lookup used to model Python dict indexing. -/
def alookup {α : Type} : List (String × α) → String → Option α
  | [], _ => none
  | (k, v) :: rest, x => if k = x then some v else alookup rest x

/-- Python `d.get(k)`: `None` when the key is absent or the value is not a
dict. -/
def pyGet : PyVal → String → PyVal
  | .dict l, k => (alookup l k).getD .pnone
  | _, _ => .pnone

/-- Python `d.get(k, default)`: the default exactly when the key is absent. -/
def pyGetD : PyVal → String → PyVal → PyVal
  | .dict l, k, d => (alookup l k).getD d
  | _, _, d => d

/-- Python `k in d` for a dict value. -/
def pyHasKey : PyVal → String → Bool
  | .dict l, k => (alookup l k).isSome
  | _, _ => false

/-- Static description of one task row: id, kind and the ids of the tasks it
depends on (its `TaskDependency` rows, in insertion order). -/
structure TaskDef where
  id : String
  ttype : TaskType
  deps : List String
  deriving DecidableEq

/-- Static description of a workflow: its id and its task rows. -/
structure WorkflowDef where
  id : String
  tasks : List TaskDef
  deriving DecidableEq

/-!
Topological sort: `WorkflowExecutor._get_execution_order`
(workflow_executor.py lines 120-163).  The Python `visit` closure is
recursive over the shared mutable sets `visited` / `temp_visited` and the
list `order`; they become an explicit `TopoState`.  Recursion depth is
bounded by a fuel parameter; `visit_no_fuel_error` below proves the fuel
`tasks.length + 1` is never exhausted, so the fuel is an artifact of the
embedding, not of the algorithm.
-/

/-- The error cases of the execution-order computation.  `cycle` is the
`ValueError` raised on a circular dependency; `keyMissing` is the Python
`KeyError` on a dependency id that is not a task; `fuelOut` is the embedding
artifact proved unreachable. -/
inductive TopoErr where
  | cycle
  | keyMissing
  | fuelOut
  deriving DecidableEq

/-- The exact message of the `ValueError` raised on a cycle
(workflow_executor.py line 145). -/
def cycleMsg : String := "Circular dependency detected in workflow tasks"

/-- Mutable state of the depth-first traversal: `visited`, `temp_visited`
and `order` (task ids, in append order). -/
structure TopoState where
  visited : List String
  temp : List String
  order : List String
  deriving DecidableEq

/-- The `for dep_id in dependencies[task_id]: visit(dep_id)` loop, over an
arbitrary visiting function (instantiated with `visit` at the next smaller
recursion depth). -/
def visitListF (f : String → TopoState → Except TopoErr TopoState) :
    List String → TopoState → Except TopoErr TopoState
  | [], st => .ok st
  | d :: ds, st =>
    match f d st with
    | .error e => .error e
    | .ok st' => visitListF f ds st'

/-- The inner `visit(task_id)` closure of `_get_execution_order`. -/
def visit (deps : List (String × List String)) : Nat → String → TopoState →
    Except TopoErr TopoState
  | 0, _, _ => .error .fuelOut
  | Nat.succ fuel, tid, st =>
    if tid ∈ st.temp then .error .cycle
    else if tid ∈ st.visited then .ok st
    else
      match alookup deps tid with
      | none => .error .keyMissing
      | some ds =>
        match visitListF (visit deps fuel) ds { st with temp := tid :: st.temp } with
        | .error e => .error e
        | .ok st' =>
          .ok { visited := tid :: st'.visited,
                temp := st'.temp.erase tid,
                order := st'.order ++ [tid] }

/-- The dependency loop at a given recursion depth. -/
def visitList (deps : List (String × List String)) (fuel : Nat) :
    List String → TopoState → Except TopoErr TopoState :=
  visitListF (visit deps fuel)

/-- The outer `for task_id in tasks_by_id: if task_id not in visited:
visit(task_id)` loop. -/
def visitAll (deps : List (String × List String)) (fuel : Nat) :
    List String → TopoState → Except TopoErr TopoState
  | [], st => .ok st
  | tid :: rest, st =>
    if tid ∈ st.visited then visitAll deps fuel rest st
    else
      match visit deps fuel tid st with
      | .error e => .error e
      | .ok st' => visitAll deps fuel rest st'

/-- The dependency dict of `_get_execution_order`: task id mapped to the ids
of the tasks it depends on (Python builds a set; insertion order stands in
for set iteration order). -/
def depTable (tasks : List TaskDef) : List (String × List String) :=
  tasks.map (fun t => (t.id, t.deps))

/-- `WorkflowExecutor._get_execution_order` (lines 120-163): depth-first
topological sort over the task dependency table, then `list(reversed(order))`.
Returns the task ids in the order the executor will dispatch them. -/
def getExecutionOrder (tasks : List TaskDef) : Except TopoErr (List String) :=
  match visitAll (depTable tasks) (tasks.length + 1) (tasks.map TaskDef.id)
      { visited := [], temp := [], order := [] } with
  | .error e => .error e
  | .ok st => .ok st.order.reverse

/-!
String machinery for `_is_valid_date`, `_is_valid_currency` and
`_is_valid_number` (workflow_executor.py lines 882-951).  The regular
expressions of the source are compiled by hand into character-list
recognisers with the same `re.fullmatch` semantics.
-/

/-- Does the pattern occur at the head of the character list. -/
def listPrefixAt : List Char → List Char → Bool
  | [], _ => true
  | _ :: _, [] => false
  | a :: as, b :: bs => a == b && listPrefixAt as bs

/-- Does the pattern occur anywhere in the character list. -/
def listHasSub (p : List Char) : List Char → Bool
  | [] => listPrefixAt p []
  | c :: rest => listPrefixAt p (c :: rest) || listHasSub p rest

/-- Does the pattern string occur as a substring. -/
def strHasSub (p s : String) : Bool := listHasSub p.toList s.toList

/-- Consume exactly n digits. -/
def chompDigitsN : Nat → List Char → Option (List Char)
  | 0, cs => some cs
  | _ + 1, [] => none
  | n + 1, c :: cs => if c.isDigit then chompDigitsN n cs else none

/-- Consume a run of digits (possibly empty). -/
def chompDigits0 : List Char → List Char
  | [] => []
  | c :: cs => if c.isDigit then chompDigits0 cs else c :: cs

/-- Consume one or more digits. -/
def chompDigits1 : List Char → Option (List Char)
  | [] => none
  | c :: cs => if c.isDigit then some (chompDigits0 cs) else none

/-- Consume one literal character. -/
def litChar (x : Char) : List Char → Option (List Char)
  | [] => none
  | c :: cs => if c == x then some cs else none

/-- Consume a literal character sequence. -/
def litSeq : List Char → List Char → Option (List Char)
  | [], cs => some cs
  | _ :: _, [] => none
  | p :: ps, c :: cs => if c == p then litSeq ps cs else none

/-- Consume a run of whitespace (the regex islands use a Python s-class
escape; Lean whitespace covers the values that occur here). -/
def chompSpaces : List Char → List Char
  | [] => []
  | c :: cs => if c.isWhitespace then chompSpaces cs else c :: cs

/-- One three-component date shape, n1 sep n2 sep n3, full match. -/
def dateShape (n1 : Nat) (sep : Char) (n2 n3 : Nat) (cs : List Char) : Bool :=
  match chompDigitsN n1 cs with
  | none => false
  | some cs1 =>
    match litChar sep cs1 with
    | none => false
    | some cs2 =>
      match chompDigitsN n2 cs2 with
      | none => false
      | some cs3 =>
        match litChar sep cs3 with
        | none => false
        | some cs4 =>
          match chompDigitsN n3 cs4 with
          | some [] => true
          | _ => false

/-- `WorkflowExecutor._is_valid_date` (lines 882-906): full match of one of
the four date shapes YYYY-MM-DD, MM/DD/YYYY, MM-DD-YYYY, MM.DD.YYYY. -/
def isValidDate (s : String) : Bool :=
  let cs := s.toList
  dateShape 4 '-' 2 2 cs || dateShape 2 '/' 2 4 cs ||
  dateShape 2 '-' 2 4 cs || dateShape 2 '.' 2 4 cs

/-- Digits followed by an optional fraction of exactly two digits. -/
def moneyCore (cs : List Char) : Option (List Char) :=
  match chompDigits1 cs with
  | none => none
  | some rest =>
    match rest with
    | [] => some []
    | c :: cs2 => if c == '.' then chompDigitsN 2 cs2 else some (c :: cs2)

/-- A currency pattern with a leading symbol, full match. -/
def currencySym (sym : Char) (cs : List Char) : Bool :=
  match cs with
  | [] => false
  | c :: rest => if c == sym then moneyCore rest == some [] else false

/-- A currency pattern with optional spaces and a trailing code, full
match. -/
def currencySuffix (suf : String) (cs : List Char) : Bool :=
  match moneyCore cs with
  | none => false
  | some rest => litSeq suf.toList (chompSpaces rest) == some []

/-- A bare amount pattern, full match. -/
def currencyPlain (cs : List Char) : Bool := moneyCore cs == some []

/-- `WorkflowExecutor._is_valid_currency` (lines 908-935): full match of one
of the seven currency shapes (dollar, USD, euro sign, EUR, pound sign, GBP,
bare amount). -/
def isValidCurrency (s : String) : Bool :=
  let cs := s.toList
  currencySym '$' cs || currencySuffix "USD" cs ||
  currencySym '€' cs || currencySuffix "EUR" cs ||
  currencySym '£' cs || currencySuffix "GBP" cs ||
  currencyPlain cs

/-- The rest of a digit run in which single underscores may separate
digits (the Python float literal grammar). -/
def chompUDigitsRest : List Char → Option (List Char)
  | '_' :: c :: cs => if c.isDigit then chompUDigitsRest cs else none
  | ['_'] => none
  | c :: cs => if c.isDigit then chompUDigitsRest cs else some (c :: cs)
  | [] => some []

/-- One or more digits with single underscores allowed between digits. -/
def chompUDigits : List Char → Option (List Char)
  | [] => none
  | c :: cs => if c.isDigit then chompUDigitsRest cs else none

/-- Consume an optional leading sign. -/
def chompSign : List Char → List Char
  | [] => []
  | c :: cs => if c == '+' || c == '-' then cs else c :: cs

/-- Case-insensitive comparison against an ASCII pattern. -/
def lowerEq (cs : List Char) (pat : String) : Bool :=
  (cs.map Char.toLower) == pat.toList

/-- The mantissa of a Python float literal: digits, optionally a dot and
optional further digits, or a dot followed by digits. -/
def chompMantissa (cs : List Char) : Option (List Char) :=
  match chompUDigits cs with
  | some rest =>
    match rest with
    | '.' :: rest2 =>
      match chompUDigits rest2 with
      | some r => some r
      | none => some rest2
    | _ => some rest
  | none =>
    match cs with
    | '.' :: rest2 => chompUDigits rest2
    | _ => none

/-- An optional exponent part of a Python float literal. -/
def chompExpOpt : List Char → Option (List Char)
  | [] => some []
  | c :: cs =>
    if c == 'e' || c == 'E' then chompUDigits (chompSign cs)
    else some (c :: cs)

/-- Acceptance of `float(s)` in Python: optional surrounding whitespace and
sign, then inf, infinity or nan (case-insensitive) or a decimal mantissa
with an optional exponent.  ASCII digits only; no claim depends on exotic
unicode digits. -/
def pyFloatValid (s : String) : Bool :=
  let cs := ((chompSpaces ((chompSpaces s.toList).reverse)).reverse)
  let cs := chompSign cs
  if lowerEq cs "inf" || lowerEq cs "infinity" || lowerEq cs "nan" then true
  else
    match chompMantissa cs with
    | none => false
    | some r =>
      match chompExpOpt r with
      | some [] => true
      | _ => false

/-- `WorkflowExecutor._is_valid_number` (lines 937-951): strip all commas,
then try `float`. -/
def isValidNumber (s : String) : Bool :=
  pyFloatValid (String.mk (s.toList.filter (fun c => c != ',')))

/-!
Embedding of `_get_fields_to_extract`, `_get_tables_to_extract`,
`_validate_extraction_results`, `_calculate_confidence`,
`_execute_validate_results_task`, `_format_extraction_results` and
`_execute_postprocess_task` (workflow_executor.py lines 534-649 and
668-1037).  Python operations that can raise on ill-typed payloads are
modelled in `Except String`.
-/

/-- Python equality of a value against a string (comparison against a
non-string value is False, never an error). -/
def pyEqStr : PyVal → String → Bool
  | .str s, n => s == n
  | _, _ => false

/-- Python `k in x`: key test for dicts, element test for lists, substring
test for strings, TypeError otherwise. -/
def pyContains (x : PyVal) (k : String) : Except String Bool :=
  match x with
  | .dict l => .ok (alookup l k).isSome
  | .list l => .ok (l.any (fun e => pyEqStr e k))
  | .str s => .ok (strHasSub k s)
  | _ => .error "TypeError"

/-- Python `x[k]` with a string key: KeyError when absent, TypeError when
`x` is not a dict. -/
def pyIndex (x : PyVal) (k : String) : Except String PyVal :=
  match x with
  | .dict l =>
    match alookup l k with
    | some v => .ok v
    | none => .error "KeyError"
  | _ => .error "TypeError"

/-- Python `x.get(k)`: AttributeError when `x` is not a dict. -/
def pyGetE (x : PyVal) (k : String) : Except String PyVal :=
  match x with
  | .dict l => .ok ((alookup l k).getD .pnone)
  | _ => .error "AttributeError"

/-- Python iteration over a value: lists yield elements, strings yield
characters, dicts yield keys; numbers and None are not iterable. -/
def pyIterate : PyVal → Except String (List PyVal)
  | .list l => .ok l
  | .str s => .ok (s.toList.map (fun c => .str (String.mk [c])))
  | .dict l => .ok (l.map (fun kv => PyVal.str kv.1))
  | _ => .error "TypeError"

/-- Python `x.values()`: AttributeError when `x` is not a dict. -/
def dictValues : PyVal → Except String (List PyVal)
  | .dict l => .ok (l.map (fun kv => kv.2))
  | _ => .error "AttributeError"

/-- Python `x.items()`: AttributeError when `x` is not a dict. -/
def dictItems : PyVal → Except String (List (String × PyVal))
  | .dict l => .ok l
  | _ => .error "AttributeError"

/-- A single-quote character, built programmatically so the embedded error
messages reproduce the exact f-strings of the source. -/
def squote : String := String.mk [Char.ofNat 39]

/-- Message appended for a missing or empty required field (line 841). -/
def reqFieldMsg (n : String) : String :=
  "Required field " ++ squote ++ n ++ squote ++ " is missing or empty"

/-- Message appended for a missing or empty required table (line 854). -/
def reqTableMsg (n : String) : String :=
  "Required table " ++ squote ++ n ++ squote ++ " is missing or empty"

/-- Warning for an invalid date value (line 867). -/
def dateWarnMsg (n v : String) : String :=
  "Field " ++ squote ++ n ++ squote ++ " has invalid date format: " ++ v

/-- Warning for an invalid currency value (line 872). -/
def currencyWarnMsg (n v : String) : String :=
  "Field " ++ squote ++ n ++ squote ++ " has invalid currency format: " ++ v

/-- Warning for an invalid number value (line 877). -/
def numberWarnMsg (n v : String) : String :=
  "Field " ++ squote ++ n ++ squote ++ " has invalid number format: " ++ v

/-- The type tag of a field definition ("string", "date", "currency",
"number"). -/
inductive FieldType where
  | string
  | date
  | currency
  | number
  deriving DecidableEq

/-- One entry of the fields-to-extract lists built by
`_get_fields_to_extract`. -/
structure FieldDef where
  name : String
  ftype : FieldType
  required : Bool
  deriving DecidableEq

/-- One entry of the tables-to-extract lists built by
`_get_tables_to_extract`.  The generic branch can produce a non-string
name; such tables are never required. -/
structure TableDef where
  name : PyVal
  required : Bool
  columns : List PyVal

/-- A column dict of the constant table templates. -/
def mkCol (n ty : String) : PyVal :=
  .dict [("name", .str n), ("type", .str ty)]

/-- `_get_fields_to_extract` (lines 668-734) with no template (as called by
`_validate_extraction_results`): the constant field lists per document
type. -/
def getFieldsToExtract (u : PyVal) : List FieldDef :=
  match pyGetD u "document_type" (.str "unknown") with
  | .str "invoice" =>
    [ { name := "invoice_number", ftype := .string, required := true },
      { name := "date", ftype := .date, required := true },
      { name := "due_date", ftype := .date, required := false },
      { name := "total_amount", ftype := .currency, required := true },
      { name := "tax_amount", ftype := .currency, required := false },
      { name := "vendor_name", ftype := .string, required := true },
      { name := "vendor_address", ftype := .string, required := false },
      { name := "customer_name", ftype := .string, required := true },
      { name := "customer_address", ftype := .string, required := false } ]
  | .str "receipt" =>
    [ { name := "receipt_number", ftype := .string, required := false },
      { name := "date", ftype := .date, required := true },
      { name := "total_amount", ftype := .currency, required := true },
      { name := "tax_amount", ftype := .currency, required := false },
      { name := "merchant_name", ftype := .string, required := true },
      { name := "merchant_address", ftype := .string, required := false },
      { name := "payment_method", ftype := .string, required := false } ]
  | .str "contract" =>
    [ { name := "contract_number", ftype := .string, required := false },
      { name := "date", ftype := .date, required := true },
      { name := "effective_date", ftype := .date, required := false },
      { name := "expiration_date", ftype := .date, required := false },
      { name := "party_1", ftype := .string, required := true },
      { name := "party_2", ftype := .string, required := true },
      { name := "contract_type", ftype := .string, required := false },
      { name := "contract_value", ftype := .currency, required := false } ]
  | _ =>
    [ { name := "title", ftype := .string, required := false },
      { name := "date", ftype := .date, required := false },
      { name := "author", ftype := .string, required := false } ]

/-- One generic table definition built from a table entry of the document
understanding payload (lines 790-802). -/
def genericTableDef (i : Nat) (el : PyVal) : Except String TableDef :=
  match el with
  | .dict _ => do
    let colSrc ← pyIterate (pyGetD el "columns" (.list []))
    .ok { name := pyGetD el "name" (.str ("table_" ++ toString i)),
          required := false,
          columns := colSrc.map (fun c => PyVal.dict [("name", c), ("type", .str "string")]) }
  | _ => .error "AttributeError"

/-- `_get_tables_to_extract` (lines 736-805) with no template: constant
table lists for invoices and receipts, tables advertised by the document
understanding otherwise. -/
def getTablesToExtract (u : PyVal) : Except String (List TableDef) :=
  match pyGetD u "document_type" (.str "unknown") with
  | .str "invoice" =>
    .ok [ { name := .str "line_items", required := true,
            columns := [mkCol "description" "string", mkCol "quantity" "number",
                        mkCol "unit_price" "currency", mkCol "total" "currency"] } ]
  | .str "receipt" =>
    .ok [ { name := .str "items", required := true,
            columns := [mkCol "description" "string", mkCol "quantity" "number",
                        mkCol "price" "currency"] } ]
  | _ =>
    let tables := pyGetD u "tables" (.list [])
    if tables.truthy then do
      let els ← pyIterate tables
      els.enum.mapM (fun ie => genericTableDef ie.1 ie.2)
    else .ok []

/-- The structured validation payload built by
`_validate_extraction_results`. -/
structure ValidationResult where
  valid : Bool
  errors : List String
  warnings : List String
  deriving DecidableEq

/-- The validation payload as the Python dict it is in the source. -/
def vToPy (v : ValidationResult) : PyVal :=
  .dict [("valid", .bool v.valid),
         ("errors", .list (v.errors.map PyVal.str)),
         ("warnings", .list (v.warnings.map PyVal.str))]

/-- The test of the required-field loop (line 838): the field is required
and missing from the results or its value is falsy. -/
def requiredFieldBad (f : PyVal) (fd : FieldDef) : Except String Bool :=
  if fd.required then do
    let has ← pyContains f fd.name
    if has then do
      let entry ← pyIndex f fd.name
      let vv ← pyGetE entry "value"
      pure (!vv.truthy)
    else pure true
  else pure false

/-- The required-field loop of `_validate_extraction_results` (lines
834-842). -/
def requiredFieldsLoop (f : PyVal) : List FieldDef → ValidationResult →
    Except String ValidationResult
  | [], acc => .ok acc
  | fd :: rest, acc => do
    let bad ← requiredFieldBad f fd
    let acc' := if bad then
        { acc with valid := false, errors := acc.errors ++ [reqFieldMsg fd.name] }
      else acc
    requiredFieldsLoop f rest acc'

/-- The display name of a table definition as interpolated into the error
message (required tables always carry string names). -/
def tableNameStr : PyVal → String
  | .str s => s
  | _ => ""

/-- The test of the required-table loop (line 851): the table is required
and missing from the results or its rows are falsy. -/
def requiredTableBad (t : PyVal) (td : TableDef) : Except String Bool :=
  if td.required then do
    let has ← match td.name with
      | .str n => pyContains t n
      | _ => pure false
    if has then do
      let entry ← pyIndex t (tableNameStr td.name)
      let vv ← pyGetE entry "rows"
      pure (!vv.truthy)
    else pure true
  else pure false

/-- The required-table loop of `_validate_extraction_results` (lines
847-855). -/
def requiredTablesLoop (t : PyVal) : List TableDef → ValidationResult →
    Except String ValidationResult
  | [], acc => .ok acc
  | td :: rest, acc => do
    let bad ← requiredTableBad t td
    let acc' := if bad then
        { acc with valid := false, errors := acc.errors ++ [reqTableMsg (tableNameStr td.name)] }
      else acc
    requiredTablesLoop t rest acc'

/-- The per-field body of the type-check loop (lines 858-878): produces the
warning to append, if any.  The three checkers raise on a non-string value
exactly as the source does (`re.fullmatch` raises TypeError,
`value.replace` raises AttributeError). -/
def typeWarning (f : PyVal) (fd : FieldDef) : Except String (Option String) := do
  let has ← pyContains f fd.name
  if has then do
    let entry ← pyIndex f fd.name
    let vv ← pyGetE entry "value"
    if vv.truthy then
      match fd.ftype with
      | .date =>
        match vv with
        | .str s => pure (if isValidDate s then none else some (dateWarnMsg fd.name s))
        | _ => .error "TypeError"
      | .currency =>
        match vv with
        | .str s => pure (if isValidCurrency s then none else some (currencyWarnMsg fd.name s))
        | _ => .error "TypeError"
      | .number =>
        match vv with
        | .str s => pure (if isValidNumber s then none else some (numberWarnMsg fd.name s))
        | _ => .error "AttributeError"
      | .string => pure none
    else pure none
  else pure none

/-- The type-check loop of `_validate_extraction_results` (lines 858-878):
appends warnings, never touches `valid` or `errors`. -/
def typeWarningsLoop (f : PyVal) : List FieldDef → ValidationResult →
    Except String ValidationResult
  | [], acc => .ok acc
  | fd :: rest, acc => do
    let w ← typeWarning f fd
    let acc' := match w with
      | some msg => { acc with warnings := acc.warnings ++ [msg] }
      | none => acc
    typeWarningsLoop f rest acc'

/-- `_validate_extraction_results` (lines 807-880): required fields, then
required tables, then field-type warnings. -/
def validateExtractionResults (f t u : PyVal) : Except String ValidationResult := do
  let init : ValidationResult := { valid := true, errors := [], warnings := [] }
  let ftx := getFieldsToExtract u
  let acc1 ← requiredFieldsLoop f ftx init
  let ttx ← getTablesToExtract u
  let acc2 ← requiredTablesLoop t ttx acc1
  typeWarningsLoop f ftx acc2

/-- The confidence contributed by one entry of a fields/tables result
(line 970): `entry.get("confidence", 0.0)`, summable numbers only. -/
def confOfEntry (e : PyVal) : Except String Rat :=
  match e with
  | .dict _ =>
    match pyGetD e "confidence" (.num 0) with
    | .num q => .ok q
    | .bool b => .ok (if b then 1 else 0)
    | _ => .error "TypeError"
  | _ => .error "AttributeError"

/-- `_calculate_confidence` (lines 953-984): mean of the per-entry
confidences of the field and table results, 0.0 when there are none. -/
def calcConfidence (f t : PyVal) : Except String Rat := do
  let fvs ← dictValues f
  let fcs ← fvs.mapM confOfEntry
  let tvs ← dictValues t
  let tcs ← tvs.mapM confOfEntry
  let allConf := fcs ++ tcs
  if allConf.isEmpty then pure 0
  else pure (allConf.sum / (allConf.length : Rat))

/-- The combined result dict built by `_execute_validate_results_task`
(lines 590-596 and 607-614). -/
def mkCombined (u f t validationPy : PyVal) (conf : Rat) : PyVal :=
  .dict [("document_type", pyGetD u "document_type" (.str "unknown")),
         ("fields", f),
         ("tables", t),
         ("validation", validationPy),
         ("confidence", .num conf)]

/-- The outcome of one call into an external collaborator (reasoning
engine, OCR, preprocessing, ...): it either raises or returns a value. -/
inductive ExtResult where
  | raise : String → ExtResult
  | value : PyVal → ExtResult

/-- The body of `_execute_validate_results_task` after its dependency
lookups (lines 572-616): try the reasoning engine result, fall back to
`_validate_extraction_results` when it is falsy, and on any exception in
the try block run the fallback path. -/
def executeValidateCore (ext : ExtResult) (f t u : PyVal) : Except String PyVal :=
  let tryBranch : Except String PyVal := do
    let vr0 ← match ext with
      | .raise e => Except.error e
      | .value v => Except.ok v
    let vrPy ← if vr0.truthy then pure vr0
      else do
        let vres ← validateExtractionResults f t u
        pure (vToPy vres)
    let conf ← calcConfidence f t
    pure (mkCombined u f t vrPy conf)
  match tryBranch with
  | .ok c => .ok c
  | .error _ => do
    let vres ← validateExtractionResults f t u
    let conf ← calcConfidence f t
    pure (mkCombined u f t (vToPy vres) conf)

/-- One formatted field entry of `_format_extraction_results` (lines
1004-1013). -/
def formatFieldEntry (fd : PyVal) : Except String PyVal :=
  match fd with
  | .dict _ =>
    let base := [("value", pyGet fd "value"), ("confidence", pyGetD fd "confidence" (.num 0))]
    .ok (.dict (if pyHasKey fd "bounding_box" then
        base ++ [("bounding_box", pyGet fd "bounding_box")] else base))
  | _ => .error "AttributeError"

/-- One formatted table entry of `_format_extraction_results` (lines
1016-1022). -/
def formatTableEntry (td : PyVal) : Except String PyVal :=
  match td with
  | .dict _ =>
    .ok (.dict [("headers", pyGetD td "headers" (.list [])),
                ("rows", pyGetD td "rows" (.list [])),
                ("confidence", pyGetD td "confidence" (.num 0))])
  | _ => .error "AttributeError"

/-- `_format_extraction_results` (lines 986-1037): reshape the combined
validation-task result for output. -/
def formatExtractionResults (vr : PyVal) : Except String PyVal := do
  let documentType := pyGetD vr "document_type" (.str "unknown")
  let fields := pyGetD vr "fields" (.dict [])
  let tables := pyGetD vr "tables" (.dict [])
  let validation := pyGetD vr "validation" (.dict [])
  let confidence := pyGetD vr "confidence" (.num 0)
  let fitems ← dictItems fields
  let ffields ← fitems.mapM (fun kv => do
    let e ← formatFieldEntry kv.2
    pure (kv.1, e))
  let titems ← dictItems tables
  let ftables ← titems.mapM (fun kv => do
    let e ← formatTableEntry kv.2
    pure (kv.1, e))
  let valOut ← match validation with
    | .dict _ =>
      Except.ok (PyVal.dict
        [("valid", pyGetD validation "valid" (.bool true)),
         ("errors", pyGetD validation "errors" (.list [])),
         ("warnings", pyGetD validation "warnings" (.list []))])
    | _ => Except.error "AttributeError"
  pure (.dict [("document_type", documentType),
               ("fields", .dict ffields),
               ("tables", .dict ftables),
               ("validation", valOut),
               ("confidence", confidence)])

/-!
Runtime semantics of `execute_workflow` (workflow_executor.py lines
64-118) with `_execute_task_with_semaphore` / `_execute_task` (lines
165-223).

The source runs one asyncio coroutine per task, all created up front and
awaited with `asyncio.gather`, gated by `asyncio.Semaphore(max_concurrency)`.
asyncio is single-threaded and cooperative: a coroutine runs atomically
between await points.  The await points of one task coroutine are (a) the
semaphore acquire and (b) the `await executor(task)` call, so each
coroutine contributes three atomic blocks:
  * acquire + `can_execute` check, which either silently ends the coroutine
    (lines 190-192, releasing the semaphore) or marks the task Running and
    enters its executor (lines 195-205);
  * the executor finishing with a value (task marked Completed, lines
    207-211) or raising (task marked Failed and the exception re-raised,
    lines 215-223);
  * after every coroutine has ended, the `gather` returns: the workflow is
    marked Completed and `_get_workflow_results` is returned (lines
    102-108), or the first raised exception marks it Failed (lines
    110-118).
The `Step` relation interleaves these atomic blocks nondeterministically,
a sound superset of the deterministic asyncio schedule.  External
collaborators (preprocessor, OCR, layout, reasoning engine) are oracles in
`Env.ext`; the validate-results and postprocess executors are data
transformations over dependency results and are embedded in full.
-/

/-- Scheduling phase of one task coroutine. -/
inductive CoPhase where
  | waitingSem
  | inExecutor
  | done : Option String → CoPhase
  deriving DecidableEq

/-- One task at runtime: its row plus the mutable status/result/error
columns and its coroutine phase. -/
structure RTTask where
  td : TaskDef
  status : TaskStatus
  result : Option PyVal
  error : Option String
  phase : CoPhase

/-- The mutable state of one `execute_workflow` call. -/
structure WfState where
  tasks : List RTTask
  wstatus : TaskStatus
  werror : Option String
  retval : Option PyVal

/-- The execution environment: the concurrency bound and the behavior of
the external collaborator invoked for each task id. -/
structure Env where
  maxConcurrency : Nat
  ext : String → ExtResult

/-- Lookup of a task by id. -/
def findT : List RTTask → String → Option RTTask
  | [], _ => none
  | t :: ts, d => if t.td.id = d then some t else findT ts d

/-- Is the dependency with the given id completed. -/
def depDone (l : List RTTask) (d : String) : Bool :=
  match findT l d with
  | some u => u.status == .completed
  | none => false

/-- Modelled from the spec: `Task.can_execute` (`app/models/workflow.py` is
absent from the sources).  Per spec section 4.1, true iff the status is
Pending and every dependency task is Completed. -/
def canExecute (l : List RTTask) (t : RTTask) : Bool :=
  t.status == .pending && t.td.deps.all (depDone l)

/-- `_get_dependency_task` (lines 651-666): the first dependency of the
given kind, in dependency-row order. -/
def depTaskOfType (l : List RTTask) (t : RTTask) (ty : TaskType) : Option RTTask :=
  t.td.deps.findSome? (fun d =>
    match findT l d with
    | some u => if u.td.ttype == ty then some u else none
    | none => none)

/-- The dependency-result fetch pattern of the executors: raise the given
message when the dependency is absent or its result is falsy. -/
def fetchDepResult (l : List RTTask) (t : RTTask) (ty : TaskType) (msg : String) :
    Except String PyVal :=
  match depTaskOfType l t ty with
  | some u =>
    match u.result with
    | some v => if v.truthy then .ok v else .error msg
    | none => .error msg
  | none => .error msg

/-- `_execute_validate_results_task` (lines 534-616): fetch the four
dependency results, then run the try/fallback body.  The text result flows
only into the external reasoning call, which the `ext` oracle already
summarises. -/
def executeValidateResultsTask (ext : ExtResult) (l : List RTTask) (t : RTTask) :
    Except String PyVal := do
  let f ← fetchDepResult l t .extract_fields "Field extraction task result not found"
  let tb ← fetchDepResult l t .extract_tables "Table extraction task result not found"
  let u ← fetchDepResult l t .understand_document "Document understanding task result not found"
  let _ ← fetchDepResult l t .extract_text "Text extraction task result not found"
  executeValidateCore ext f tb u

/-- `_execute_postprocess_task` (lines 618-649): format the validation
dependency result.  The side update of the external Document row is not
modelled. -/
def executePostprocessTask (l : List RTTask) (t : RTTask) : Except String PyVal := do
  let vr ← fetchDepResult l t .validate_results "Validation task result not found"
  formatExtractionResults vr

/-- The `task_executors` registry dispatch (lines 51-60 and 200-205):
validate-results and postprocess are embedded; the six collaborator-bound
kinds are the `ext` oracle. -/
def dispatchExec (env : Env) (l : List RTTask) (t : RTTask) : Except String PyVal :=
  match t.td.ttype with
  | .validate_results => executeValidateResultsTask (env.ext t.td.id) l t
  | .postprocess => executePostprocessTask l t
  | _ =>
    match env.ext t.td.id with
    | .raise e => .error e
    | .value v => .ok v

/-- The silent return of `_execute_task` when `can_execute` is false
(lines 190-192): the coroutine ends, nothing else changes. -/
def markSkipped (t : RTTask) : RTTask := { t with phase := .done none }

/-- Lines 195-197: the task is marked Running and its executor starts. -/
def markRunning (t : RTTask) : RTTask :=
  { t with status := .running, phase := .inExecutor }

/-- Lines 207-211: result stored, task Completed, coroutine ends. -/
def markCompleted (t : RTTask) (v : PyVal) : RTTask :=
  { t with status := .completed, result := some v, phase := .done none }

/-- Lines 215-223: error stored, task Failed, the exception re-raised out
of the coroutine. -/
def markFailed (t : RTTask) (e : String) : RTTask :=
  { t with status := .failed, error := some e, phase := .done (some e) }

/-- Replace the i-th task. -/
def setTask (s : WfState) (i : Nat) (t : RTTask) : WfState :=
  { s with tasks := s.tasks.set i t }

/-- Number of coroutines currently holding the semaphore inside their
executor. -/
def numInExec (s : WfState) : Nat :=
  (s.tasks.filter (fun t => t.phase == .inExecutor)).length

/-- Number of tasks whose status is Running. -/
def countRunning (s : WfState) : Nat :=
  (s.tasks.filter (fun t => t.status == .running)).length

/-- Have all task coroutines ended. -/
def allDone (s : WfState) : Bool :=
  s.tasks.all (fun t => match t.phase with | .done _ => true | _ => false)

/-- The first exception raised by a coroutine, in task-list order. -/
def firstRaised (s : WfState) : Option String :=
  s.tasks.findSome? (fun t => match t.phase with | .done (some e) => some e | _ => none)

/-- String value of a status, as serialised by the service layer.
Modelled from the spec: the status enum of `app/models/workflow.py` is
absent from the sources; the service compares its `.value` to these
strings. -/
def statusStr : TaskStatus → String
  | .pending => "pending"
  | .running => "running"
  | .completed => "completed"
  | .failed => "failed"

/-- The status-dict fallback of `_get_workflow_results` (lines 1060-1064);
the timestamp is not modelled. -/
def fallbackResults (s : WfState) : PyVal :=
  .dict [("status", .str (statusStr s.wstatus)),
         ("error", match s.werror with | some e => .str e | none => .pnone),
         ("completed_at", .pnone)]

/-- `_get_workflow_results` (lines 1039-1064): the first Completed
postprocess task with a truthy result, else the status dict. -/
def getWorkflowResults (s : WfState) : PyVal :=
  match s.tasks.find? (fun t => t.td.ttype == .postprocess && t.status == .completed) with
  | some p =>
    match p.result with
    | some v => if v.truthy then v else fallbackResults s
    | none => fallbackResults s
  | none => fallbackResults s

/-- The return of `execute_workflow` once `gather` has finished: the first
raised exception fails the workflow (lines 110-118), otherwise it is
Completed and `_get_workflow_results` is the return value (lines
102-108). -/
def applyFinal (s : WfState) : WfState :=
  match firstRaised s with
  | some e => { s with wstatus := .failed, werror := some e }
  | none =>
    let s' := { s with wstatus := .completed }
    { s' with retval := some (getWorkflowResults s') }

/-- One atomic block of the asyncio execution, interleaved
nondeterministically. -/
inductive Step (env : Env) : WfState → WfState → Prop where
  | skip (s : WfState) (i : Nat) (t : RTTask) :
      s.tasks.get? i = some t → t.phase = .waitingSem →
      numInExec s < env.maxConcurrency → canExecute s.tasks t = false →
      Step env s (setTask s i (markSkipped t))
  | start (s : WfState) (i : Nat) (t : RTTask) :
      s.tasks.get? i = some t → t.phase = .waitingSem →
      numInExec s < env.maxConcurrency → canExecute s.tasks t = true →
      Step env s (setTask s i (markRunning t))
  | finishOk (s : WfState) (i : Nat) (t : RTTask) (v : PyVal) :
      s.tasks.get? i = some t → t.phase = .inExecutor →
      dispatchExec env s.tasks t = .ok v →
      Step env s (setTask s i (markCompleted t v))
  | finishErr (s : WfState) (i : Nat) (t : RTTask) (e : String) :
      s.tasks.get? i = some t → t.phase = .inExecutor →
      dispatchExec env s.tasks t = .error e →
      Step env s (setTask s i (markFailed t e))
  | finalize (s : WfState) :
      allDone s = true → s.wstatus = .running →
      Step env s (applyFinal s)

/-- Reachability along atomic blocks. -/
def Reachable (env : Env) (s0 s : WfState) : Prop :=
  Relation.ReflTransGen (Step env) s0 s

/-- A freshly loaded task: Pending, no result, no error, its coroutine
waiting on the semaphore. -/
def initTask (td : TaskDef) : RTTask :=
  { td := td, status := .pending, result := none, error := none, phase := .waitingSem }

/-- The state right after line 84: the workflow was marked Running and no
coroutine has run yet. -/
def initState (wf : WorkflowDef) : WfState :=
  { tasks := wf.tasks.map initTask, wstatus := .running, werror := none, retval := none }

/-- Python message rendering of the exception that aborts
`execute_workflow` before dispatch. -/
def topoErrMsg : TopoErr → String
  | .cycle => cycleMsg
  | .keyMissing => "KeyError"
  | .fuelOut => "RecursionError"

/-- Outcome of the sequential prefix of `execute_workflow` (lines 74-97):
missing workflow, abort on a bad graph, or entry into the concurrent
phase. -/
inductive EntryResult where
  | notFound (msg : String)
  | cycleAbort (msg : String) (final : WfState)
  | proceed (order : List String) (init : WfState)

/-- Lines 74-97 of `execute_workflow`: load the workflow (ValueError when
missing), mark it Running, compute the execution order; an exception there
marks the workflow Failed with that error and re-raises, before any task
is dispatched. -/
def executeWorkflowEntry (store : List (String × WorkflowDef)) (wid : String) :
    EntryResult :=
  match alookup store wid with
  | none => .notFound ("Workflow not found: " ++ wid)
  | some wf =>
    match getExecutionOrder wf.tasks with
    | .error e =>
      .cycleAbort (topoErrMsg e)
        { initState wf with wstatus := .failed, werror := some (topoErrMsg e) }
    | .ok order => .proceed order (initState wf)

/-!
`workflow_service.get_workflow_status` (workflow_service.py lines
324-399).
-/

/-- A stored workflow row as the status query sees it: its document, its
status and error columns and its tasks' statuses.  Timestamps are not
modelled. -/
structure WorkflowRow where
  document_id : String
  status : TaskStatus
  error : Option String
  taskStatuses : List TaskStatus

/-- Count of tasks with the given status. -/
def countStatus (l : List TaskStatus) (st : TaskStatus) : Nat :=
  (l.filter (fun x => x == st)).length

/-- `get_workflow_status`: the not-found dict when the id is absent,
otherwise the status payload with task counts and progress
(completed / total * 100). -/
def getWorkflowStatus (store : List (String × WorkflowRow)) (wid : String) : PyVal :=
  match alookup store wid with
  | none => .dict [("workflow_id", .str wid), ("status", .str "not_found")]
  | some w =>
    let total := w.taskStatuses.length
    let completed := countStatus w.taskStatuses .completed
    let progress : Rat := if 0 < total then ((completed : Rat) / (total : Rat)) * 100 else 0
    .dict [("workflow_id", .str wid),
           ("document_id", .str w.document_id),
           ("status", .str (statusStr w.status)),
           ("created_at", .pnone),
           ("updated_at", .pnone),
           ("completed_at", .pnone),
           ("error", match w.error with | some e => .str e | none => .pnone),
           ("task_counts", .dict
             [("total", .num total),
              ("pending", .num (countStatus w.taskStatuses .pending)),
              ("running", .num (countStatus w.taskStatuses .running)),
              ("completed", .num completed),
              ("failed", .num (countStatus w.taskStatuses .failed))]),
           ("progress", .num progress)]

/-!
Theory of the depth-first execution-order computation.
-/

/-- The dependency list of a task id in the dependency table. -/
def depsOf (deps : List (String × List String)) (tid : String) : List String :=
  (alookup deps tid).getD []

/-- The dependency edge relation: x depends directly on y. -/
def DepEdge (deps : List (String × List String)) (x y : String) : Prop :=
  y ∈ depsOf deps x

/-- A dependency cycle: some id depends transitively on itself. -/
def HasCycle (tasks : List TaskDef) : Prop :=
  ∃ a, Relation.TransGen (DepEdge (depTable tasks)) a a

/-- Every dependency id of every task is itself a task id. -/
def ClosedDeps (tasks : List TaskDef) : Prop :=
  ∀ t ∈ tasks, ∀ d ∈ t.deps, d ∈ tasks.map TaskDef.id

/-- An order built by appending nodes whose dependencies are already
present: the shape of the `order` list grown by `visit`. -/
inductive OrderOK (deps : List (String × List String)) : List String → Prop where
  | nil : OrderOK deps []
  | snoc (l : List String) (t : String) :
      OrderOK deps l → t ∉ l → (∀ d ∈ depsOf deps t, d ∈ l) →
      OrderOK deps (l ++ [t])

theorem ordOK_deps_mem {deps : List (String × List String)} {l : List String}
    (h : OrderOK deps l) : ∀ t ∈ l, ∀ d ∈ depsOf deps t, d ∈ l := by
  induction h with
  | nil => intro t ht; simp at ht
  | snoc l t _ _ hdep ih =>
    intro x hx d hd
    rcases List.mem_append.1 hx with hx | hx
    · exact List.mem_append_left _ (ih x hx d hd)
    · simp only [List.mem_singleton] at hx
      subst hx
      exact List.mem_append_left _ (hdep d hd)

theorem ordOK_reach_mem {deps : List (String × List String)} {l : List String}
    (h : OrderOK deps l) {a b : String}
    (hr : Relation.ReflTransGen (DepEdge deps) a b) (ha : a ∈ l) : b ∈ l := by
  induction hr with
  | refl => exact ha
  | tail _ e ih => exact ordOK_deps_mem h _ ih _ e

theorem ordOK_no_cycle {deps : List (String × List String)} {l : List String}
    (h : OrderOK deps l) : ∀ a ∈ l, ¬ Relation.TransGen (DepEdge deps) a a := by
  induction h with
  | nil => intro a ha; simp at ha
  | snoc l t hOK hnot hdep ih =>
    intro a ha hcyc
    rcases List.mem_append.1 ha with ha | ha
    · exact ih a ha hcyc
    · simp only [List.mem_singleton] at ha
      subst ha
      rcases Relation.TransGen.head'_iff.1 hcyc with ⟨c, he, hr⟩
      exact hnot (ordOK_reach_mem hOK hr (hdep c he))

/-- Invariant of the traversal state: visited and order hold the same ids,
the order has no duplicates and respects dependencies. -/
structure GoodTopo (deps : List (String × List String)) (st : TopoState) : Prop where
  visOrd : ∀ x, x ∈ st.visited ↔ x ∈ st.order
  nodupOrder : st.order.Nodup
  ordOK : OrderOK deps st.order

/-- Postcondition of a successful `visit` or `visitList` call. -/
def TopoPost (deps : List (String × List String)) (st st' : TopoState) : Prop :=
  GoodTopo deps st' ∧ st'.temp = st.temp ∧
  (∀ x ∈ st.visited, x ∈ st'.visited) ∧
  (∀ x ∈ st'.visited, x ∈ st.visited ∨ x ∉ st.temp)

theorem topoPost_refl {deps : List (String × List String)} {st : TopoState}
    (hg : GoodTopo deps st) : TopoPost deps st st :=
  ⟨hg, rfl, fun _ hx => hx, fun _ hx => Or.inl hx⟩

theorem topoPost_trans {deps : List (String × List String)} {s1 s2 s3 : TopoState}
    (h12 : TopoPost deps s1 s2) (h23 : TopoPost deps s2 s3) : TopoPost deps s1 s3 := by
  obtain ⟨g2, t12, m12, n12⟩ := h12
  obtain ⟨g3, t23, m23, n23⟩ := h23
  refine ⟨g3, t23.trans t12, fun x hx => m23 x (m12 x hx), fun x hx => ?_⟩
  rcases n23 x hx with hx2 | hx2
  · exact n12 x hx2
  · rw [t12] at hx2
    exact Or.inr hx2

/-- Specification of a successful `visit` at a given fuel. -/
def VisitOkSpec (deps : List (String × List String)) (fuel : Nat) : Prop :=
  ∀ tid st st', visit deps fuel tid st = .ok st' → GoodTopo deps st →
    TopoPost deps st st' ∧ tid ∈ st'.visited

/-- Specification of a successful `visitList` at a given fuel. -/
def VisitListOkSpec (deps : List (String × List String)) (fuel : Nat) : Prop :=
  ∀ ds st st', visitList deps fuel ds st = .ok st' → GoodTopo deps st →
    TopoPost deps st st' ∧ ∀ d ∈ ds, d ∈ st'.visited

theorem goodTopo_set_temp {deps : List (String × List String)} {st : TopoState}
    (hg : GoodTopo deps st) (tp : List String) :
    GoodTopo deps { st with temp := tp } :=
  ⟨hg.visOrd, hg.nodupOrder, hg.ordOK⟩

theorem visitList_ok_of_visit_ok {deps : List (String × List String)} {fuel : Nat}
    (h : VisitOkSpec deps fuel) : VisitListOkSpec deps fuel := by
  intro ds
  induction ds with
  | nil =>
    intro st st' hok hg
    simp only [visitList, visitListF] at hok
    cases hok
    exact ⟨topoPost_refl hg, by simp⟩
  | cons d ds ih =>
    intro st st' hok hg
    simp only [visitList, visitListF] at hok
    split at hok
    · exact absurd hok (by simp)
    · rename_i st1 heq
      obtain ⟨post1, hd1⟩ := h d st st1 heq hg
      obtain ⟨post2, hds⟩ := ih st1 st' hok post1.1
      refine ⟨topoPost_trans post1 post2, ?_⟩
      intro x hx
      rcases List.mem_cons.1 hx with rfl | hx
      · exact post2.2.2.1 x hd1
      · exact hds x hx

theorem visit_ok_succ {deps : List (String × List String)} {fuel : Nat}
    (hL : VisitListOkSpec deps fuel) : VisitOkSpec deps (fuel + 1) := by
  intro tid st st' hok hg
  simp only [visit] at hok
  split at hok
  · exact absurd hok (by simp)
  · split at hok
    · cases hok
      rename_i hvis
      exact ⟨topoPost_refl hg, hvis⟩
    · rename_i htemp hvis
      split at hok
      · exact absurd hok (by simp)
      · rename_i ds hds
        split at hok
        · exact absurd hok (by simp)
        · rename_i st1 heq1
          cases hok
          obtain ⟨⟨g1, t1, m1, n1⟩, hdsvis⟩ :=
            hL ds { st with temp := tid :: st.temp } st1 heq1
              (goodTopo_set_temp hg _)
          have htid1 : tid ∉ st1.visited := by
            intro hmem
            rcases n1 tid hmem with hc | hc
            · exact hvis hc
            · exact hc (List.mem_cons_self _ _)
          have htidord : tid ∉ st1.order := fun hc => htid1 ((g1.visOrd tid).2 hc)
          have hdepsOf : depsOf deps tid = ds := by
            simp [depsOf, hds]
          refine ⟨⟨?_, ?_, ?_, ?_⟩, ?_⟩
          · refine ⟨?_, ?_, ?_⟩
            · intro x
              simp only [List.mem_cons, List.mem_append, List.mem_singleton]
              rw [g1.visOrd x]
              tauto
            · rw [List.nodup_append]
              exact ⟨g1.nodupOrder, List.nodup_singleton _,
                fun x hx hx' => by
                  simp only [List.mem_singleton] at hx'
                  subst hx'
                  exact htidord hx⟩
            · refine OrderOK.snoc _ _ g1.ordOK htidord ?_
              intro d hd
              rw [hdepsOf] at hd
              exact (g1.visOrd d).1 (hdsvis d hd)
          · show st1.temp.erase tid = st.temp
            rw [t1]
            exact List.erase_cons_head tid st.temp
          · intro x hx
            exact List.mem_cons_of_mem _ (m1 x hx)
          · intro x hx
            rcases List.mem_cons.1 hx with rfl | hx
            · exact Or.inr htemp
            · rcases n1 x hx with hc | hc
              · exact Or.inl hc
              · refine Or.inr fun hc2 => hc ?_
                simp only [t1] at hc ⊢
                exact List.mem_cons_of_mem _ hc2
          · exact List.mem_cons_self _ _

theorem visit_ok (deps : List (String × List String)) :
    ∀ fuel, VisitOkSpec deps fuel := by
  intro fuel
  induction fuel with
  | zero =>
    intro tid st st' h
    exact absurd h (by simp [visit])
  | succ f ih => exact visit_ok_succ (visitList_ok_of_visit_ok ih)

theorem visitAll_ok {deps : List (String × List String)} {fuel : Nat} :
    ∀ ids st st', visitAll deps fuel ids st = .ok st' → GoodTopo deps st →
    TopoPost deps st st' ∧ ∀ x ∈ ids, x ∈ st'.visited := by
  intro ids
  induction ids with
  | nil =>
    intro st st' h hg
    simp only [visitAll] at h
    cases h
    exact ⟨topoPost_refl hg, by simp⟩
  | cons tid rest ih =>
    intro st st' h hg
    simp only [visitAll] at h
    split at h
    · rename_i hv
      obtain ⟨post, hall⟩ := ih st st' h hg
      refine ⟨post, fun x hx => ?_⟩
      rcases List.mem_cons.1 hx with rfl | hx
      · exact post.2.2.1 x hv
      · exact hall x hx
    · split at h
      · exact absurd h (by simp)
      · rename_i st1 heq
        obtain ⟨post1, htid⟩ := visit_ok deps fuel tid st st1 heq hg
        obtain ⟨post2, hall⟩ := ih st1 st' h post1.1
        refine ⟨topoPost_trans post1 post2, fun x hx => ?_⟩
        rcases List.mem_cons.1 hx with rfl | hx
        · exact post2.2.2.1 x htid
        · exact hall x hx

theorem alookup_isSome_iff {α : Type} (l : List (String × α)) (x : String) :
    (alookup l x).isSome ↔ x ∈ l.map Prod.fst := by
  induction l with
  | nil => simp [alookup]
  | cons kv rest ih =>
    obtain ⟨k, v⟩ := kv
    by_cases h : k = x
    · subst h
      simp [alookup]
    · simp only [alookup, h, if_false, List.map_cons, List.mem_cons, ih]
      constructor
      · exact Or.inr
      · rintro (rfl | hx)
        · exact absurd rfl h
        · exact hx

theorem nodup_subset_length {l1 l2 : List String} (h1 : l1.Nodup)
    (h2 : ∀ x ∈ l1, x ∈ l2) : l1.length ≤ l2.length := by
  classical
  calc l1.length = l1.toFinset.card := by rw [List.toFinset_card_of_nodup h1]
    _ ≤ l2.toFinset.card := by
        refine Finset.card_le_card ?_
        intro x hx
        simp only [List.mem_toFinset] at hx ⊢
        exact h2 x hx
    _ ≤ l2.length := l2.toFinset_card_le

/-- Fuel-sufficiency specification for `visit`. -/
def VisitNF (deps : List (String × List String)) (fuel : Nat) : Prop :=
  ∀ tid st, GoodTopo deps st → st.temp.Nodup →
    (∀ x ∈ st.temp, x ∈ deps.map Prod.fst) →
    (deps.map Prod.fst).length < fuel + st.temp.length →
    visit deps fuel tid st ≠ .error .fuelOut

/-- Fuel-sufficiency specification for `visitList`. -/
def VisitListNF (deps : List (String × List String)) (fuel : Nat) : Prop :=
  ∀ ds st, GoodTopo deps st → st.temp.Nodup →
    (∀ x ∈ st.temp, x ∈ deps.map Prod.fst) →
    (deps.map Prod.fst).length < fuel + st.temp.length →
    visitList deps fuel ds st ≠ .error .fuelOut

theorem visitListNF_of_visitNF {deps : List (String × List String)} {fuel : Nat}
    (h : VisitNF deps fuel) : VisitListNF deps fuel := by
  intro ds
  induction ds with
  | nil =>
    intro st _ _ _ _
    simp [visitList, visitListF]
  | cons d ds ih =>
    intro st hg hnd hsub hbound
    simp only [visitList, visitListF]
    split
    · rename_i e heq
      intro hcon
      injection hcon with hcon
      subst hcon
      exact h d st hg hnd hsub hbound heq
    · rename_i st1 heq
      obtain ⟨⟨g1, t1, _, _⟩, _⟩ := visit_ok deps fuel d st st1 heq hg
      exact ih st1 g1 (t1 ▸ hnd) (fun x hx => hsub x (t1 ▸ hx)) (by rw [t1]; exact hbound)

theorem visitNF_succ {deps : List (String × List String)} {fuel : Nat}
    (hL : VisitListNF deps fuel) : VisitNF deps (fuel + 1) := by
  intro tid st hg hnd hsub hbound
  simp only [visit]
  split
  · simp
  · split
    · simp
    · rename_i htemp hvis
      split
      · simp
      · rename_i ds hl
        have htidkey : tid ∈ deps.map Prod.fst := by
          rw [← alookup_isSome_iff]
          rw [hl]
          rfl
        have hnf := hL ds { st with temp := tid :: st.temp }
          (goodTopo_set_temp hg _)
          (List.nodup_cons.2 ⟨htemp, hnd⟩)
          (by
            intro x hx
            rcases List.mem_cons.1 hx with rfl | hx
            · exact htidkey
            · exact hsub x hx)
          (by
            show (deps.map Prod.fst).length < fuel + (tid :: st.temp).length
            simp only [List.length_cons]
            omega)
        split
        · rename_i e heq
          intro hcon
          injection hcon with hcon
          subst hcon
          exact hnf heq
        · simp

theorem visitNF_all (deps : List (String × List String)) :
    ∀ fuel, VisitNF deps fuel := by
  intro fuel
  induction fuel with
  | zero =>
    intro tid st _ hnd hsub hbound
    exact absurd hbound (by
      have := nodup_subset_length hnd hsub
      omega)
  | succ f ih => exact visitNF_succ (visitListNF_of_visitNF ih)

theorem visitAllNF {deps : List (String × List String)} {fuel : Nat} :
    ∀ ids st, GoodTopo deps st → st.temp.Nodup →
    (∀ x ∈ st.temp, x ∈ deps.map Prod.fst) →
    (deps.map Prod.fst).length < fuel + st.temp.length →
    visitAll deps fuel ids st ≠ .error .fuelOut := by
  intro ids
  induction ids with
  | nil =>
    intro st _ _ _ _
    simp [visitAll]
  | cons tid rest ih =>
    intro st hg hnd hsub hbound
    simp only [visitAll]
    split
    · exact ih st hg hnd hsub hbound
    · split
      · rename_i e heq
        intro hcon
        injection hcon with hcon
        subst hcon
        exact visitNF_all deps fuel tid st hg hnd hsub hbound heq
      · rename_i st1 heq
        obtain ⟨⟨g1, t1, _, _⟩, _⟩ := visit_ok deps fuel tid st st1 heq hg
        exact ih st1 g1 (t1 ▸ hnd) (fun x hx => hsub x (t1 ▸ hx)) (by rw [t1]; exact hbound)

/-- Key-closedness of a dependency table. -/
def ClosedKeys (deps : List (String × List String)) : Prop :=
  ∀ x ds, alookup deps x = some ds → ∀ d ∈ ds, d ∈ deps.map Prod.fst

/-- Key-error exclusion for `visit`. -/
def VisitNK (deps : List (String × List String)) (fuel : Nat) : Prop :=
  ∀ tid st, tid ∈ deps.map Prod.fst → visit deps fuel tid st ≠ .error .keyMissing

/-- Key-error exclusion for `visitList`. -/
def VisitListNK (deps : List (String × List String)) (fuel : Nat) : Prop :=
  ∀ ds st, (∀ d ∈ ds, d ∈ deps.map Prod.fst) →
    visitList deps fuel ds st ≠ .error .keyMissing

theorem visitListNK_of_visitNK {deps : List (String × List String)} {fuel : Nat}
    (h : VisitNK deps fuel) : VisitListNK deps fuel := by
  intro ds
  induction ds with
  | nil =>
    intro st _
    simp [visitList, visitListF]
  | cons d ds ih =>
    intro st hsub
    simp only [visitList, visitListF]
    split
    · rename_i e heq
      intro hcon
      injection hcon with hcon
      subst hcon
      exact h d st (hsub d (List.mem_cons_self _ _)) heq
    · rename_i st1 heq
      exact ih st1 (fun x hx => hsub x (List.mem_cons_of_mem _ hx))

theorem visitNK_succ {deps : List (String × List String)} {fuel : Nat}
    (hclosed : ClosedKeys deps) (hL : VisitListNK deps fuel) :
    VisitNK deps (fuel + 1) := by
  intro tid st htid
  simp only [visit]
  split
  · simp
  · split
    · simp
    · split
      · rename_i hl
        rw [← alookup_isSome_iff] at htid
        rw [hl] at htid
        exact absurd htid (by simp)
      · rename_i ds hl
        have hnk := hL ds { st with temp := tid :: st.temp } (hclosed tid ds hl)
        split
        · rename_i e heq
          intro hcon
          injection hcon with hcon
          subst hcon
          exact hnk heq
        · simp

theorem visitNK_all {deps : List (String × List String)}
    (hclosed : ClosedKeys deps) : ∀ fuel, VisitNK deps fuel := by
  intro fuel
  induction fuel with
  | zero =>
    intro tid st _
    simp [visit]
  | succ f ih => exact visitNK_succ hclosed (visitListNK_of_visitNK ih)

theorem visitAllNK {deps : List (String × List String)} {fuel : Nat}
    (hclosed : ClosedKeys deps) :
    ∀ ids st, (∀ x ∈ ids, x ∈ deps.map Prod.fst) →
    visitAll deps fuel ids st ≠ .error .keyMissing := by
  intro ids
  induction ids with
  | nil =>
    intro st _
    simp [visitAll]
  | cons tid rest ih =>
    intro st hsub
    simp only [visitAll]
    split
    · exact ih st (fun x hx => hsub x (List.mem_cons_of_mem _ hx))
    · split
      · rename_i e heq
        intro hcon
        injection hcon with hcon
        subst hcon
        exact visitNK_all hclosed fuel tid st (hsub tid (List.mem_cons_self _ _)) heq
      · rename_i st1 heq
        exact ih st1 (fun x hx => hsub x (List.mem_cons_of_mem _ hx))

theorem depTable_keys (tasks : List TaskDef) :
    (depTable tasks).map Prod.fst = tasks.map TaskDef.id := by
  simp [depTable]

theorem alookup_depTable {tasks : List TaskDef} {x : String} {ds : List String}
    (h : alookup (depTable tasks) x = some ds) :
    ∃ t ∈ tasks, t.id = x ∧ t.deps = ds := by
  induction tasks with
  | nil => simp [depTable, alookup] at h
  | cons t rest ih =>
    simp only [depTable, List.map_cons, alookup] at h
    split at h
    · rename_i hx
      cases h
      exact ⟨t, List.mem_cons_self _ _, hx, rfl⟩
    · obtain ⟨u, hu, hux, huds⟩ := ih h
      exact ⟨u, List.mem_cons_of_mem _ hu, hux, huds⟩

theorem closedKeys_of_closedDeps {tasks : List TaskDef}
    (h : ClosedDeps tasks) : ClosedKeys (depTable tasks) := by
  intro x ds hl d hd
  obtain ⟨t, ht, _, hds⟩ := alookup_depTable hl
  rw [depTable_keys]
  exact h t ht d (hds ▸ hd)

theorem goodTopo_init (deps : List (String × List String)) :
    GoodTopo deps { visited := [], temp := [], order := [] } :=
  ⟨by simp, List.nodup_nil, OrderOK.nil⟩

/-- On a closed, duplicate-free task set with a dependency cycle,
`_get_execution_order` raises exactly the circular-dependency
`ValueError`. -/
theorem getExecutionOrder_cycle_error {tasks : List TaskDef}
    (hclosed : ClosedDeps tasks)
    (hcyc : HasCycle tasks) : getExecutionOrder tasks = .error .cycle := by
  unfold getExecutionOrder
  have hkeys := depTable_keys tasks
  split
  · rename_i e heq
    cases e with
    | cycle => rfl
    | keyMissing =>
      exact absurd heq (visitAllNK (closedKeys_of_closedDeps hclosed) _ _
        (by rw [hkeys]; exact fun x hx => hx))
    | fuelOut =>
      refine absurd heq (visitAllNF _ _ (goodTopo_init _) List.nodup_nil
        (by simp) ?_)
      rw [hkeys]
      simp
  · rename_i st heq
    obtain ⟨⟨gfin, _, _, _⟩, hall⟩ := visitAll_ok _ _ st heq (goodTopo_init _)
    obtain ⟨a, hcyca⟩ := hcyc
    have haedge : ∃ c, DepEdge (depTable tasks) a c :=
      (Relation.TransGen.head'_iff.1 hcyca).imp (fun c hc => hc.1)
    obtain ⟨c, hc⟩ := haedge
    have hasome : (alookup (depTable tasks) a).isSome := by
      unfold DepEdge depsOf at hc
      cases hl : alookup (depTable tasks) a with
      | none => rw [hl] at hc; simp at hc
      | some ds => rfl
    have hakey : a ∈ tasks.map TaskDef.id := by
      rw [← hkeys]
      exact (alookup_isSome_iff _ _).1 hasome
    have haord : a ∈ st.order := (gfin.visOrd a).1 (hall a hakey)
    exact absurd hcyca (ordOK_no_cycle gfin.ordOK a haord)

/-!
Invariants of the concurrent execution semantics.
-/

/-- All dependencies of a task are completed. -/
def DepsCompleted (l : List RTTask) (t : RTTask) : Prop :=
  ∀ d ∈ t.td.deps, depDone l d = true

theorem canExecute_iff {l : List RTTask} {t : RTTask} :
    canExecute l t = true ↔ t.status = .pending ∧ DepsCompleted l t := by
  unfold canExecute DepsCompleted
  rw [Bool.and_eq_true, beq_iff_eq, List.all_eq_true]

theorem memOfMemSet {α : Type} {l : List α} {i : Nat} {b x : α}
    (h : x ∈ l.set i b) : x ∈ l ∨ x = b := by
  induction l generalizing i with
  | nil => simp [List.set] at h
  | cons hd tl ih =>
    cases i with
    | zero =>
      rcases List.mem_cons.1 h with rfl | h
      · exact Or.inr rfl
      · exact Or.inl (List.mem_cons_of_mem _ h)
    | succ j =>
      rcases List.mem_cons.1 h with rfl | h
      · exact Or.inl (List.mem_cons_self _ _)
      · rcases ih h with h | h
        · exact Or.inl (List.mem_cons_of_mem _ h)
        · exact Or.inr h

theorem filter_set_len_eq {α : Type} (p : α → Bool) (l : List α) (i : Nat)
    (t u : α) (hget : l.get? i = some t) (h : p u = p t) :
    ((l.set i u).filter p).length = (l.filter p).length := by
  induction l generalizing i with
  | nil => simp at hget
  | cons hd tl ih =>
    cases i with
    | zero =>
      simp only [List.get?] at hget
      cases hget
      simp only [List.set, List.filter_cons, h]
      split <;> simp
    | succ j =>
      simp only [List.get?] at hget
      simp only [List.set, List.filter_cons]
      split <;> simp [ih j hget]

theorem filter_set_len_succ {α : Type} (p : α → Bool) (l : List α) (i : Nat)
    (t u : α) (hget : l.get? i = some t) (ht : p t = false) (hu : p u = true) :
    ((l.set i u).filter p).length = (l.filter p).length + 1 := by
  induction l generalizing i with
  | nil => simp at hget
  | cons hd tl ih =>
    cases i with
    | zero =>
      simp only [List.get?] at hget
      cases hget
      simp [List.set, List.filter_cons, ht, hu]
    | succ j =>
      simp only [List.get?] at hget
      simp only [List.set, List.filter_cons]
      split <;> simp [ih j hget]

theorem filter_set_len_le {α : Type} (p : α → Bool) (l : List α) (i : Nat)
    (u : α) (hu : p u = false) :
    ((l.set i u).filter p).length ≤ (l.filter p).length := by
  induction l generalizing i with
  | nil => simp [List.set]
  | cons hd tl ih =>
    cases i with
    | zero =>
      show ((u :: tl).filter p).length ≤ ((hd :: tl).filter p).length
      rw [List.filter_cons, List.filter_cons, hu]
      simp only [Bool.false_eq_true, if_false]
      split
      · simp only [List.length_cons]
        exact Nat.le_succ _
      · exact Nat.le_refl _
    | succ j =>
      simp only [List.set, List.filter_cons]
      split
      · simpa using ih j
      · exact ih j

theorem findT_set_cases {l : List RTTask} {i : Nat} {t u : RTTask}
    (hget : l.get? i = some t) (hid : u.td = t.td) (d : String) :
    findT (l.set i u) d = findT l d ∨
    (findT (l.set i u) d = some u ∧ findT l d = some t) := by
  induction l generalizing i with
  | nil => simp at hget
  | cons hd tl ih =>
    cases i with
    | zero =>
      simp only [List.get?] at hget
      cases hget
      by_cases hcond : t.td.id = d
      · have hcond' : u.td.id = d := by rw [hid]; exact hcond
        right
        constructor
        · simp [List.set, findT, hcond']
        · simp [findT, hcond]
      · have hcond' : ¬ u.td.id = d := by rw [hid]; exact hcond
        left
        simp [List.set, findT, hcond, hcond']
    | succ j =>
      simp only [List.get?] at hget
      by_cases hcond : hd.td.id = d
      · left
        simp [List.set, findT, hcond]
      · simpa [List.set, findT, hcond] using ih hget

theorem depDone_set_eq {l : List RTTask} {i : Nat} {t u : RTTask}
    (hget : l.get? i = some t) (hid : u.td = t.td)
    (hst : (u.status == TaskStatus.completed) = (t.status == TaskStatus.completed))
    (d : String) : depDone (l.set i u) d = depDone l d := by
  unfold depDone
  rcases findT_set_cases hget hid d with h | ⟨h1, h2⟩
  · rw [h]
  · rw [h1, h2]
    exact hst

theorem depDone_set_mono {l : List RTTask} {i : Nat} {t u : RTTask}
    (hget : l.get? i = some t) (hid : u.td = t.td)
    (hu : u.status = .completed) (d : String)
    (h : depDone l d = true) : depDone (l.set i u) d = true := by
  unfold depDone
  rcases findT_set_cases hget hid d with he | ⟨h1, _⟩
  · rw [he]
    exact h
  · rw [h1]
    simp [hu]


theorem memOfGet {α : Type} {l : List α} {i : Nat} {a : α}
    (h : l.get? i = some a) : a ∈ l := by
  induction l generalizing i with
  | nil => simp at h
  | cons hd tl ih =>
    cases i with
    | zero =>
      simp only [List.get?] at h
      cases h
      exact List.mem_cons_self _ _
    | succ j =>
      simp only [List.get?] at h
      exact List.mem_cons_of_mem _ (ih h)

theorem applyFinal_tasks (s : WfState) : (applyFinal s).tasks = s.tasks := by
  unfold applyFinal
  split <;> rfl

theorem numInExec_applyFinal (s : WfState) : numInExec (applyFinal s) = numInExec s := by
  unfold numInExec
  rw [applyFinal_tasks]

theorem allDone_phase {s : WfState} (h : allDone s = true) {t : RTTask}
    (ht : t ∈ s.tasks) : ∃ o, t.phase = .done o := by
  unfold allDone at h
  rw [List.all_eq_true] at h
  have := h t ht
  cases hp : t.phase with
  | waitingSem => rw [hp] at this; simp at this
  | inExecutor => rw [hp] at this; simp at this
  | done o => exact ⟨o, rfl⟩

theorem ok_of_bind {α β : Type} {x : Except String α} {f : α → Except String β}
    {b : β} (h : (x >>= f) = .ok b) : ∃ a, x = .ok a ∧ f a = .ok b := by
  cases x with
  | error e => simp [Bind.bind, Except.bind] at h
  | ok a =>
    refine ⟨a, rfl, ?_⟩
    simpa [Bind.bind, Except.bind] using h

theorem formatRes_truthy {vr v : PyVal} (h : formatExtractionResults vr = .ok v) :
    v.truthy = true := by
  simp only [formatExtractionResults] at h
  obtain ⟨fitems, h1, h⟩ := ok_of_bind h
  obtain ⟨ffields, h2, h⟩ := ok_of_bind h
  obtain ⟨titems, h3, h⟩ := ok_of_bind h
  obtain ⟨ftables, h4, h⟩ := ok_of_bind h
  cases hval : pyGetD vr "validation" (PyVal.dict [])
  case dict a =>
    simp only [hval] at h
    obtain ⟨valOut, h5, h⟩ := ok_of_bind h
    cases h
    rfl
  all_goals
    simp only [hval] at h
    simp [Bind.bind, Except.bind] at h

theorem dispatch_postprocess_truthy {env : Env} {l : List RTTask} {t : RTTask}
    {v : PyVal} (hty : t.td.ttype = .postprocess)
    (h : dispatchExec env l t = .ok v) : v.truthy = true := by
  unfold dispatchExec at h
  rw [hty] at h
  unfold executePostprocessTask at h
  simp only [bind, Except.bind] at h
  split at h
  · exact absurd h (by simp)
  · exact formatRes_truthy h

/-- The master invariant of the concurrent execution phase. -/
structure EngineInv (env : Env) (s : WfState) : Prop where
  wait_pending : ∀ t ∈ s.tasks, t.phase = .waitingSem → t.status = .pending
  run_exec : ∀ t ∈ s.tasks, (t.status = .running ↔ t.phase = .inExecutor)
  failed_raised : ∀ t ∈ s.tasks, (t.status = .failed ↔ ∃ e, t.phase = .done (some e))
  blocked_pending : ∀ t ∈ s.tasks, ¬ DepsCompleted s.tasks t → t.status = .pending
  exec_bound : numInExec s ≤ env.maxConcurrency
  completed_result : ∀ t ∈ s.tasks, t.status = .completed →
    ∃ v, t.result = some v ∧ (t.td.ttype = .postprocess → v.truthy = true)
  w_completed : s.wstatus = .completed →
    allDone s = true ∧ ∀ t ∈ s.tasks, t.status ≠ .failed
  w_failed : s.wstatus = .failed → allDone s = true

theorem numInExec_init (wf : WorkflowDef) : numInExec (initState wf) = 0 := by
  unfold numInExec initState
  simp only
  induction wf.tasks with
  | nil => rfl
  | cons td rest ih =>
    simp only [List.map_cons, List.filter_cons]
    have hp : ((initTask td).phase == CoPhase.inExecutor) = false := rfl
    rw [hp]
    simpa using ih

theorem inv_init (env : Env) (wf : WorkflowDef) : EngineInv env (initState wf) := by
  have hmem : ∀ t ∈ (initState wf).tasks, t.status = TaskStatus.pending ∧
      t.phase = CoPhase.waitingSem := by
    intro t ht
    simp only [initState, List.mem_map] at ht
    obtain ⟨td, _, rfl⟩ := ht
    exact ⟨rfl, rfl⟩
  constructor
  · intro t ht _
    exact (hmem t ht).1
  · intro t ht
    obtain ⟨h1, h2⟩ := hmem t ht
    rw [h1, h2]
    simp
  · intro t ht
    obtain ⟨h1, h2⟩ := hmem t ht
    rw [h1, h2]
    simp
  · intro t ht _
    exact (hmem t ht).1
  · rw [numInExec_init]
    exact Nat.zero_le _
  · intro t ht hc
    rw [(hmem t ht).1] at hc
    exact absurd hc (by simp)
  · intro h
    exact absurd h (by simp [initState])
  · intro h
    exact absurd h (by simp [initState])

theorem inv_step {env : Env} {s s' : WfState} (hinv : EngineInv env s)
    (hstep : Step env s s') : EngineInv env s' := by
  cases hstep with
  | skip i t hget hph hsem hcan =>
    have htmem : t ∈ s.tasks := memOfGet hget
    have htp : t.status = .pending := hinv.wait_pending t htmem hph
    have hstat_eq : ((markSkipped t).status == TaskStatus.completed) =
        (t.status == TaskStatus.completed) := rfl
    have hdep_eq : ∀ d, depDone (setTask s i (markSkipped t)).tasks d = depDone s.tasks d :=
      depDone_set_eq hget rfl hstat_eq
    have hDC : ∀ x : RTTask, DepsCompleted (setTask s i (markSkipped t)).tasks x ↔
        DepsCompleted s.tasks x := by
      intro x
      unfold DepsCompleted
      constructor
      · intro h d hd; rw [← hdep_eq d]; exact h d hd
      · intro h d hd; rw [hdep_eq d]; exact h d hd
    have hwst : s.wstatus ≠ .completed ∧ s.wstatus ≠ .failed := by
      constructor
      · intro hc
        obtain ⟨o, ho⟩ := allDone_phase (hinv.w_completed hc).1 htmem
        rw [hph] at ho
        exact absurd ho (by simp)
      · intro hc
        obtain ⟨o, ho⟩ := allDone_phase (hinv.w_failed hc) htmem
        rw [hph] at ho
        exact absurd ho (by simp)
    constructor
    · intro x hx hxp
      rcases memOfMemSet hx with hx | rfl
      · exact hinv.wait_pending x hx hxp
      · exact absurd hxp (by simp [markSkipped])
    · intro x hx
      rcases memOfMemSet hx with hx | rfl
      · exact hinv.run_exec x hx
      · simp [markSkipped, htp]
    · intro x hx
      rcases memOfMemSet hx with hx | rfl
      · exact hinv.failed_raised x hx
      · simp [markSkipped, htp]
    · intro x hx hndc
      rw [hDC x] at hndc
      rcases memOfMemSet hx with hx | rfl
      · exact hinv.blocked_pending x hx hndc
      · exact htp
    · show numInExec (setTask s i (markSkipped t)) ≤ env.maxConcurrency
      unfold numInExec setTask
      have := filter_set_len_eq (fun x => x.phase == CoPhase.inExecutor) s.tasks i t
        (markSkipped t) hget (by simp [markSkipped, hph])
      simp only at this ⊢
      rw [this]
      exact hinv.exec_bound
    · intro x hx hxc
      rcases memOfMemSet hx with hx | rfl
      · exact hinv.completed_result x hx hxc
      · rw [show (markSkipped t).status = t.status from rfl, htp] at hxc
        exact absurd hxc (by simp)
    · intro hc
      exact absurd hc hwst.1
    · intro hc
      exact absurd hc hwst.2
  | start i t hget hph hsem hcan =>
    have htmem : t ∈ s.tasks := memOfGet hget
    obtain ⟨htp, hDCt⟩ := canExecute_iff.1 hcan
    have hstat_eq : ((markRunning t).status == TaskStatus.completed) =
        (t.status == TaskStatus.completed) := by
      simp [markRunning, htp]
    have hdep_eq : ∀ d, depDone (setTask s i (markRunning t)).tasks d = depDone s.tasks d :=
      depDone_set_eq hget rfl hstat_eq
    have hDC : ∀ x : RTTask, DepsCompleted (setTask s i (markRunning t)).tasks x ↔
        DepsCompleted s.tasks x := by
      intro x
      unfold DepsCompleted
      constructor
      · intro h d hd; rw [← hdep_eq d]; exact h d hd
      · intro h d hd; rw [hdep_eq d]; exact h d hd
    have hwst : s.wstatus ≠ .completed ∧ s.wstatus ≠ .failed := by
      constructor
      · intro hc
        obtain ⟨o, ho⟩ := allDone_phase (hinv.w_completed hc).1 htmem
        rw [hph] at ho
        exact absurd ho (by simp)
      · intro hc
        obtain ⟨o, ho⟩ := allDone_phase (hinv.w_failed hc) htmem
        rw [hph] at ho
        exact absurd ho (by simp)
    constructor
    · intro x hx hxp
      rcases memOfMemSet hx with hx | rfl
      · exact hinv.wait_pending x hx hxp
      · exact absurd hxp (by simp [markRunning])
    · intro x hx
      rcases memOfMemSet hx with hx | rfl
      · exact hinv.run_exec x hx
      · simp [markRunning]
    · intro x hx
      rcases memOfMemSet hx with hx | rfl
      · exact hinv.failed_raised x hx
      · simp [markRunning]
    · intro x hx hndc
      rw [hDC x] at hndc
      rcases memOfMemSet hx with hx | rfl
      · exact hinv.blocked_pending x hx hndc
      · exact absurd (fun d hd => hDCt d hd) hndc
    · show numInExec (setTask s i (markRunning t)) ≤ env.maxConcurrency
      unfold numInExec setTask
      have := filter_set_len_succ (fun x => x.phase == CoPhase.inExecutor) s.tasks i t
        (markRunning t) hget (by simp [hph]) (by simp [markRunning])
      simp only at this ⊢
      rw [this]
      exact hsem
    · intro x hx hxc
      rcases memOfMemSet hx with hx | rfl
      · exact hinv.completed_result x hx hxc
      · exact absurd hxc (by simp [markRunning])
    · intro hc
      exact absurd hc hwst.1
    · intro hc
      exact absurd hc hwst.2
  | finishOk i t v hget hph hdisp =>
    have htmem : t ∈ s.tasks := memOfGet hget
    have htr : t.status = .running := (hinv.run_exec t htmem).2 hph
    have hDCt : DepsCompleted s.tasks t := by
      by_contra hndc
      rw [hinv.blocked_pending t htmem hndc] at htr
      exact absurd htr (by simp)
    have hid : (markCompleted t v).td = t.td := rfl
    have hu : (markCompleted t v).status = TaskStatus.completed := rfl
    have hdep_mono : ∀ x : RTTask, DepsCompleted s.tasks x →
        DepsCompleted (setTask s i (markCompleted t v)).tasks x := by
      intro x h d hd
      exact depDone_set_mono hget hid hu d (h d hd)
    have hwst : s.wstatus ≠ .completed ∧ s.wstatus ≠ .failed := by
      constructor
      · intro hc
        obtain ⟨o, ho⟩ := allDone_phase (hinv.w_completed hc).1 htmem
        rw [hph] at ho
        exact absurd ho (by simp)
      · intro hc
        obtain ⟨o, ho⟩ := allDone_phase (hinv.w_failed hc) htmem
        rw [hph] at ho
        exact absurd ho (by simp)
    constructor
    · intro x hx hxp
      rcases memOfMemSet hx with hx | rfl
      · exact hinv.wait_pending x hx hxp
      · exact absurd hxp (by simp [markCompleted])
    · intro x hx
      rcases memOfMemSet hx with hx | rfl
      · exact hinv.run_exec x hx
      · simp [markCompleted]
    · intro x hx
      rcases memOfMemSet hx with hx | rfl
      · exact hinv.failed_raised x hx
      · simp [markCompleted]
    · intro x hx hndc
      rcases memOfMemSet hx with hx | rfl
      · exact hinv.blocked_pending x hx (fun h => hndc (hdep_mono x h))
      · exact absurd (hdep_mono t hDCt) hndc
    · show numInExec (setTask s i (markCompleted t v)) ≤ env.maxConcurrency
      unfold numInExec setTask
      have := filter_set_len_le (fun x => x.phase == CoPhase.inExecutor) s.tasks i
        (markCompleted t v) (by simp [markCompleted])
      simp only at this ⊢
      exact le_trans this hinv.exec_bound
    · intro x hx hxc
      rcases memOfMemSet hx with hx | rfl
      · exact hinv.completed_result x hx hxc
      · exact ⟨v, rfl, fun hty => dispatch_postprocess_truthy hty hdisp⟩
    · intro hc
      exact absurd hc hwst.1
    · intro hc
      exact absurd hc hwst.2
  | finishErr i t e hget hph hdisp =>
    have htmem : t ∈ s.tasks := memOfGet hget
    have htr : t.status = .running := (hinv.run_exec t htmem).2 hph
    have hstat_eq : ((markFailed t e).status == TaskStatus.completed) =
        (t.status == TaskStatus.completed) := by
      simp [markFailed, htr]
    have hdep_eq : ∀ d, depDone (setTask s i (markFailed t e)).tasks d = depDone s.tasks d :=
      depDone_set_eq hget rfl hstat_eq
    have hDC : ∀ x : RTTask, DepsCompleted (setTask s i (markFailed t e)).tasks x ↔
        DepsCompleted s.tasks x := by
      intro x
      unfold DepsCompleted
      constructor
      · intro h d hd; rw [← hdep_eq d]; exact h d hd
      · intro h d hd; rw [hdep_eq d]; exact h d hd
    have hwst : s.wstatus ≠ .completed ∧ s.wstatus ≠ .failed := by
      constructor
      · intro hc
        obtain ⟨o, ho⟩ := allDone_phase (hinv.w_completed hc).1 htmem
        rw [hph] at ho
        exact absurd ho (by simp)
      · intro hc
        obtain ⟨o, ho⟩ := allDone_phase (hinv.w_failed hc) htmem
        rw [hph] at ho
        exact absurd ho (by simp)
    constructor
    · intro x hx hxp
      rcases memOfMemSet hx with hx | rfl
      · exact hinv.wait_pending x hx hxp
      · exact absurd hxp (by simp [markFailed])
    · intro x hx
      rcases memOfMemSet hx with hx | rfl
      · exact hinv.run_exec x hx
      · simp [markFailed]
    · intro x hx
      rcases memOfMemSet hx with hx | rfl
      · exact hinv.failed_raised x hx
      · refine ⟨fun _ => ⟨e, rfl⟩, fun _ => rfl⟩
    · intro x hx hndc
      rw [hDC x] at hndc
      rcases memOfMemSet hx with hx | rfl
      · exact hinv.blocked_pending x hx hndc
      · have := hinv.blocked_pending t htmem hndc
        rw [htr] at this
        exact absurd this (by simp)
    · show numInExec (setTask s i (markFailed t e)) ≤ env.maxConcurrency
      unfold numInExec setTask
      have := filter_set_len_le (fun x => x.phase == CoPhase.inExecutor) s.tasks i
        (markFailed t e) (by simp [markFailed])
      simp only at this ⊢
      exact le_trans this hinv.exec_bound
    · intro x hx hxc
      rcases memOfMemSet hx with hx | rfl
      · exact hinv.completed_result x hx hxc
      · exact absurd hxc (by simp [markFailed])
    · intro hc
      exact absurd hc hwst.1
    · intro hc
      exact absurd hc hwst.2
  | finalize hdone hrun =>
    have htasks : (applyFinal s).tasks = s.tasks := applyFinal_tasks s
    have hDCeq : ∀ x : RTTask, DepsCompleted (applyFinal s).tasks x ↔
        DepsCompleted s.tasks x := by
      intro x
      rw [htasks]
    have hall : allDone (applyFinal s) = allDone s := by
      unfold allDone
      rw [htasks]
    constructor
    · rw [htasks]; exact hinv.wait_pending
    · rw [htasks]; exact hinv.run_exec
    · rw [htasks]; exact hinv.failed_raised
    · intro x hx hndc
      rw [htasks] at hx
      rw [hDCeq x] at hndc
      exact hinv.blocked_pending x hx hndc
    · rw [numInExec_applyFinal]; exact hinv.exec_bound
    · rw [htasks]; exact hinv.completed_result
    · intro hc
      refine ⟨by rw [hall]; exact hdone, ?_⟩
      rw [htasks]
      intro x hx hxf
      unfold applyFinal at hc
      cases hfr : firstRaised s with
      | some e => rw [hfr] at hc; exact absurd hc (by simp)
      | none =>
        obtain ⟨e, he⟩ := (hinv.failed_raised x hx).1 hxf
        unfold firstRaised at hfr
        rw [List.findSome?_eq_none_iff] at hfr
        have := hfr x hx
        rw [he] at this
        exact absurd this (by simp)
    · intro _
      rw [hall]
      exact hdone

theorem inv_reachable {env : Env} {wf : WorkflowDef} {s : WfState}
    (h : Reachable env (initState wf) s) : EngineInv env s := by
  induction h with
  | refl => exact inv_init env wf
  | tail _ hstep ih => exact inv_step ih hstep

theorem countRunning_eq_numInExec {env : Env} {s : WfState}
    (hinv : EngineInv env s) : countRunning s = numInExec s := by
  unfold countRunning numInExec
  have : ∀ t ∈ s.tasks,
      (t.status == TaskStatus.running) = (t.phase == CoPhase.inExecutor) := by
    intro t ht
    have hiff := hinv.run_exec t ht
    by_cases h : t.status = TaskStatus.running
    · rw [h, hiff.1 h]
      rfl
    · have h2 : t.phase ≠ CoPhase.inExecutor := fun hc => h (hiff.2 hc)
      rw [beq_eq_false_iff_ne.2 h, beq_eq_false_iff_ne.2 h2]
  rw [List.filter_congr this]

/-- Direct dependency between task ids inside a runtime task list. -/
def TaskDepends (l : List RTTask) (a b : String) : Prop :=
  ∃ t ∈ l, t.td.id = a ∧ b ∈ t.td.deps

theorem setSame {α : Type} {l : List α} {i : Nat} {a : α}
    (h : l.get? i = some a) : l.set i a = l := by
  induction l generalizing i with
  | nil => rfl
  | cons hd tl ih =>
    cases i with
    | zero =>
      simp only [List.get?] at h
      cases h
      rfl
    | succ j =>
      simp only [List.get?] at h
      simp [List.set, ih h]

theorem map_set {α β : Type} (f : α → β) (l : List α) (i : Nat) (u : α) :
    (l.set i u).map f = (l.map f).set i (f u) := by
  induction l generalizing i with
  | nil => rfl
  | cons hd tl ih =>
    cases i with
    | zero => rfl
    | succ j => simp [List.set, ih]

theorem step_tds {env : Env} {s s' : WfState} (hstep : Step env s s') :
    s'.tasks.map RTTask.td = s.tasks.map RTTask.td := by
  have key : ∀ (i : Nat) (t u : RTTask), s.tasks.get? i = some t → u.td = t.td →
      (setTask s i u).tasks.map RTTask.td = s.tasks.map RTTask.td := by
    intro i t u hget hid
    show (s.tasks.set i u).map RTTask.td = s.tasks.map RTTask.td
    rw [map_set, hid]
    refine setSame ?_
    rw [List.get?_map, hget]
    rfl
  cases hstep with
  | skip i t hget _ _ _ => exact key i t _ hget rfl
  | start i t hget _ _ _ => exact key i t _ hget rfl
  | finishOk i t v hget _ _ => exact key i t _ hget rfl
  | finishErr i t e hget _ _ => exact key i t _ hget rfl
  | finalize _ _ => rw [applyFinal_tasks]

theorem reachable_tds {env : Env} {wf : WorkflowDef} {s : WfState}
    (h : Reachable env (initState wf) s) :
    s.tasks.map RTTask.td = wf.tasks := by
  induction h with
  | refl =>
    show (wf.tasks.map initTask).map RTTask.td = wf.tasks
    rw [List.map_map]
    have hcomp : RTTask.td ∘ initTask = fun td => td := rfl
    rw [hcomp, List.map_id']
  | tail _ hstep ih => rw [step_tds hstep, ih]

theorem findT_id {l : List RTTask} {d : String} {u : RTTask}
    (h : findT l d = some u) : u ∈ l ∧ u.td.id = d := by
  induction l with
  | nil => simp [findT] at h
  | cons hd tl ih =>
    unfold findT at h
    split at h
    · cases h
      rename_i hid
      exact ⟨List.mem_cons_self _ _, hid⟩
    · obtain ⟨hm, hid⟩ := ih h
      exact ⟨List.mem_cons_of_mem _ hm, hid⟩

theorem findT_of_mem_nodup {l : List RTTask} {B : RTTask}
    (hnodup : (l.map (fun t => t.td.id)).Nodup) (hB : B ∈ l) :
    findT l B.td.id = some B := by
  induction l with
  | nil => simp at hB
  | cons hd tl ih =>
    rw [List.map_cons, List.nodup_cons] at hnodup
    rcases List.mem_cons.1 hB with rfl | hB
    · simp [findT]
    · unfold findT
      split
      · rename_i hid
        exact absurd (hid ▸ List.mem_map_of_mem (fun t => t.td.id) hB) hnodup.1
      · exact ih hnodup.2 hB

theorem eq_of_same_id {l : List RTTask} {t t' : RTTask}
    (hnodup : (l.map (fun x => x.td.id)).Nodup) (ht : t ∈ l) (ht' : t' ∈ l)
    (hid : t.td.id = t'.td.id) : t = t' := by
  have h1 := findT_of_mem_nodup hnodup ht
  have h2 := findT_of_mem_nodup hnodup ht'
  rw [hid] at h1
  rw [h1] at h2
  cases h2
  rfl

/-- In every reachable state, a task that transitively depends on a Failed
task is still Pending: the engine never marks it Running or Failed. -/
theorem failed_dep_pending {env : Env} {wf : WorkflowDef} {s : WfState}
    (hnodup : (wf.tasks.map TaskDef.id).Nodup)
    (hr : Reachable env (initState wf) s) {A B : RTTask}
    (hA : A ∈ s.tasks) (hB : B ∈ s.tasks) (hfail : B.status = .failed)
    (hdep : Relation.TransGen (TaskDepends s.tasks) A.td.id B.td.id) :
    A.status = .pending := by
  have hinv := inv_reachable hr
  have hnd : (s.tasks.map (fun t => t.td.id)).Nodup := by
    have : s.tasks.map (fun t => t.td.id) = wf.tasks.map TaskDef.id := by
      rw [show (fun (t : RTTask) => t.td.id) = (TaskDef.id ∘ RTTask.td) from rfl,
        ← List.map_map, reachable_tds hr]
    rw [this]
    exact hnodup
  have main : ∀ a, Relation.TransGen (TaskDepends s.tasks) a B.td.id →
      ∀ t ∈ s.tasks, t.td.id = a → t.status = .pending := by
    intro a hchain
    induction hchain using Relation.TransGen.head_induction_on with
    | base hedge =>
      intro t ht hta
      obtain ⟨t', ht', hid', hdep'⟩ := hedge
      have : t = t' := eq_of_same_id hnd ht ht' (by rw [hta, hid'])
      subst this
      refine hinv.blocked_pending t ht ?_
      intro hDC
      have := hDC B.td.id hdep'
      unfold depDone at this
      rw [findT_of_mem_nodup hnd hB] at this
      simp [hfail] at this
    | ih hedge _ ihp =>
      intro t ht hta
      obtain ⟨t', ht', hid', hdep'⟩ := hedge
      have : t = t' := eq_of_same_id hnd ht ht' (by rw [hta, hid'])
      subst this
      refine hinv.blocked_pending t ht ?_
      intro hDC
      have hdd := hDC _ hdep'
      unfold depDone at hdd
      cases hfind : findT s.tasks _ with
      | none => rw [hfind] at hdd; exact absurd hdd (by simp)
      | some u =>
        rw [hfind] at hdd
        obtain ⟨hu, huid⟩ := findT_id hfind
        have hps := ihp u hu huid
        simp [hps] at hdd
  exact main A.td.id hdep A hA rfl

/-!
Concrete workflows used by the claim witnesses and counterexamples.
-/

/-- A preprocess task with no dependencies. -/
def bDef : TaskDef := { id := "wf_preprocess", ttype := .preprocess, deps := [] }

/-- An extract-text task depending on the preprocess task. -/
def aDef : TaskDef := { id := "wf_extract_text", ttype := .extract_text,
                        deps := ["wf_preprocess"] }

/-- The two-task chain workflow. -/
def wfPair : WorkflowDef := { id := "w2", tasks := [bDef, aDef] }

/-- Environment where preprocessing succeeds with a text payload. -/
def envW : Env :=
  { maxConcurrency := 4,
    ext := fun i => if i = "wf_preprocess"
      then .value (.dict [("text", .str "x")])
      else .raise "unused" }

/-- Environment where preprocessing raises. -/
def envF : Env :=
  { maxConcurrency := 4,
    ext := fun i => if i = "wf_preprocess"
      then .raise "boom"
      else .raise "unused" }

/-- wfPair after the preprocess task was started. -/
def sW1 : WfState := setTask (initState wfPair) 0 (markRunning (initTask bDef))

/-- wfPair after the preprocess task completed. -/
def sW2 : WfState :=
  setTask sW1 0 (markCompleted (markRunning (initTask bDef))
    (.dict [("text", .str "x")]))

/-- wfPair after the extract-text task was started. -/
def sW3 : WfState := setTask sW2 1 (markRunning (initTask aDef))

theorem reach_sW3 : Reachable envW (initState wfPair) sW3 := by
  have h1 : Step envW (initState wfPair) sW1 :=
    Step.start (initState wfPair) 0 (initTask bDef) rfl rfl (by decide) (by decide)
  have h2 : Step envW sW1 sW2 :=
    Step.finishOk sW1 0 (markRunning (initTask bDef))
      (.dict [("text", .str "x")]) rfl rfl rfl
  have h3 : Step envW sW2 sW3 :=
    Step.start sW2 1 (initTask aDef) rfl rfl (by decide) (by decide)
  exact Relation.ReflTransGen.tail
    (Relation.ReflTransGen.tail (Relation.ReflTransGen.single h1) h2) h3

/-- wfPair under envF, after the extract-text coroutine was silently
skipped (its dependency still Pending). -/
def sF1 : WfState := setTask (initState wfPair) 1 (markSkipped (initTask aDef))

/-- After the preprocess task started. -/
def sF2 : WfState := setTask sF1 0 (markRunning (initTask bDef))

/-- After the preprocess executor raised. -/
def sF3 : WfState :=
  setTask sF2 0 (markFailed (markRunning (initTask bDef)) "boom")

/-- After `gather` returned and the workflow was marked Failed. -/
def sF4 : WfState := applyFinal sF3

theorem reach_sF3 : Reachable envF (initState wfPair) sF3 := by
  have h1 : Step envF (initState wfPair) sF1 :=
    Step.skip (initState wfPair) 1 (initTask aDef) rfl rfl (by decide) (by decide)
  have h2 : Step envF sF1 sF2 :=
    Step.start sF1 0 (initTask bDef) rfl rfl (by decide) (by decide)
  have h3 : Step envF sF2 sF3 :=
    Step.finishErr sF2 0 (markRunning (initTask bDef)) "boom" rfl rfl rfl
  exact Relation.ReflTransGen.tail
    (Relation.ReflTransGen.tail (Relation.ReflTransGen.single h1) h2) h3

theorem reach_sF4 : Reachable envF (initState wfPair) sF4 :=
  Relation.ReflTransGen.tail reach_sF3
    (Step.finalize sF3 (by decide) rfl)

/-!
A six-task workflow that runs to completion with an invalid validation
outcome: the four upstream stages succeed via their collaborators, the
embedded validate-results executor falls back to
`_validate_extraction_results` (reasoning result falsy) and records missing
required invoice fields, and the embedded postprocess executor formats the
combined result.
-/

/-- Text-extraction collaborator output. -/
def xVal : PyVal := .dict [("text", .str "hello")]

/-- Document-understanding collaborator output: an invoice. -/
def uVal : PyVal := .dict [("document_type", .str "invoice")]

/-- Field-extraction collaborator output: only the vendor name. -/
def fVal : PyVal :=
  .dict [("vendor_name", .dict [("value", .str "ACME"), ("confidence", .num 1)])]

/-- Table-extraction collaborator output: no line_items table. -/
def tVal : PyVal := .dict [("other", .dict [("confidence", .num 1)])]

/-- The six task rows. -/
def xDef : TaskDef := { id := "x", ttype := .extract_text, deps := [] }

/-- Understanding task row. -/
def uDef : TaskDef := { id := "u", ttype := .understand_document, deps := [] }

/-- Field-extraction task row. -/
def fDef : TaskDef := { id := "f", ttype := .extract_fields, deps := [] }

/-- Table-extraction task row. -/
def t2Def : TaskDef := { id := "t2", ttype := .extract_tables, deps := [] }

/-- Validate-results task row, depending on the four stages above. -/
def vDef : TaskDef := { id := "v", ttype := .validate_results,
                        deps := ["f", "t2", "u", "x"] }

/-- Postprocess task row, depending on validation. -/
def pDef : TaskDef := { id := "p", ttype := .postprocess, deps := ["v"] }

/-- The six-task workflow. -/
def wf6 : WorkflowDef := { id := "w6", tasks := [xDef, uDef, fDef, t2Def, vDef, pDef] }

/-- Collaborator behavior for wf6; the reasoning validation returns a falsy
dict, forcing the basic-validation fallback. -/
def env6 : Env :=
  { maxConcurrency := 4,
    ext := fun i =>
      if i = "x" then .value xVal
      else if i = "u" then .value uVal
      else if i = "f" then .value fVal
      else if i = "t2" then .value tVal
      else if i = "v" then .value (.dict [])
      else .raise "unused" }

/-- States of the sequential run of wf6. -/
def s6c1 : WfState := setTask (initState wf6) 0 (markRunning (initTask xDef))

/-- After x completed. -/
def s6c2 : WfState := setTask s6c1 0 (markCompleted (markRunning (initTask xDef)) xVal)

/-- After u started. -/
def s6c3 : WfState := setTask s6c2 1 (markRunning (initTask uDef))

/-- After u completed. -/
def s6c4 : WfState := setTask s6c3 1 (markCompleted (markRunning (initTask uDef)) uVal)

/-- After f started. -/
def s6c5 : WfState := setTask s6c4 2 (markRunning (initTask fDef))

/-- After f completed. -/
def s6c6 : WfState := setTask s6c5 2 (markCompleted (markRunning (initTask fDef)) fVal)

/-- After t2 started. -/
def s6c7 : WfState := setTask s6c6 3 (markRunning (initTask t2Def))

/-- After t2 completed. -/
def s6c8 : WfState := setTask s6c7 3 (markCompleted (markRunning (initTask t2Def)) tVal)

/-- After v started. -/
def s6c9 : WfState := setTask s6c8 4 (markRunning (initTask vDef))

/-- The combined validate-results payload computed by the embedded
executor. -/
def vOut : PyVal :=
  match dispatchExec env6 s6c9.tasks (markRunning (initTask vDef)) with
  | .ok v => v
  | .error _ => .pnone

/-- After v completed. -/
def s6c10 : WfState := setTask s6c9 4 (markCompleted (markRunning (initTask vDef)) vOut)

/-- After p started. -/
def s6c11 : WfState := setTask s6c10 5 (markRunning (initTask pDef))

/-- The formatted output computed by the embedded postprocess executor. -/
def pOut : PyVal :=
  match dispatchExec env6 s6c11.tasks (markRunning (initTask pDef)) with
  | .ok v => v
  | .error _ => .pnone

/-- All six tasks completed. -/
def s6c12 : WfState := setTask s6c11 5 (markCompleted (markRunning (initTask pDef)) pOut)

/-- The final state after `gather` returned. -/
def s6F : WfState := applyFinal s6c12

theorem reach_s6c12 : Reachable env6 (initState wf6) s6c12 := by
  have h1 : Step env6 (initState wf6) s6c1 :=
    Step.start (initState wf6) 0 (initTask xDef) rfl rfl (by decide) (by decide)
  have h2 : Step env6 s6c1 s6c2 :=
    Step.finishOk s6c1 0 (markRunning (initTask xDef)) xVal rfl rfl rfl
  have h3 : Step env6 s6c2 s6c3 :=
    Step.start s6c2 1 (initTask uDef) rfl rfl (by decide) (by decide)
  have h4 : Step env6 s6c3 s6c4 :=
    Step.finishOk s6c3 1 (markRunning (initTask uDef)) uVal rfl rfl rfl
  have h5 : Step env6 s6c4 s6c5 :=
    Step.start s6c4 2 (initTask fDef) rfl rfl (by decide) (by decide)
  have h6 : Step env6 s6c5 s6c6 :=
    Step.finishOk s6c5 2 (markRunning (initTask fDef)) fVal rfl rfl rfl
  have h7 : Step env6 s6c6 s6c7 :=
    Step.start s6c6 3 (initTask t2Def) rfl rfl (by decide) (by decide)
  have h8 : Step env6 s6c7 s6c8 :=
    Step.finishOk s6c7 3 (markRunning (initTask t2Def)) tVal rfl rfl rfl
  have h9 : Step env6 s6c8 s6c9 :=
    Step.start s6c8 4 (initTask vDef) rfl rfl (by decide) (by decide)
  have h10 : Step env6 s6c9 s6c10 :=
    Step.finishOk s6c9 4 (markRunning (initTask vDef)) vOut rfl rfl rfl
  have h11 : Step env6 s6c10 s6c11 :=
    Step.start s6c10 5 (initTask pDef) rfl rfl (by decide) (by decide)
  have h12 : Step env6 s6c11 s6c12 :=
    Step.finishOk s6c11 5 (markRunning (initTask pDef)) pOut rfl rfl rfl
  exact Relation.ReflTransGen.tail (Relation.ReflTransGen.tail
    (Relation.ReflTransGen.tail (Relation.ReflTransGen.tail
      (Relation.ReflTransGen.tail (Relation.ReflTransGen.tail
        (Relation.ReflTransGen.tail (Relation.ReflTransGen.tail
          (Relation.ReflTransGen.tail (Relation.ReflTransGen.tail
            (Relation.ReflTransGen.tail (Relation.ReflTransGen.single h1)
              h2) h3) h4) h5) h6) h7) h8) h9) h10) h11) h12

theorem reach_s6F : Reachable env6 (initState wf6) s6F :=
  Relation.ReflTransGen.tail reach_s6c12 (Step.finalize s6c12 (by decide) rfl)

/-!
Claim theorems.
-/

/-- C1: the claim states that `_get_execution_order` places every task
after all of its dependencies.  The code computes a correct
dependencies-first order by depth-first search and then reverses it
(line 163), so the returned list places dependents first: on the two-task
chain (extract_text depends on preprocess) it returns extract_text before
preprocess, the reverse of the order its own test
(`test_get_execution_order`) asserts.  This theorem evaluates the code at
that failing input. -/
theorem c1_execution_order_reversed_bug :
    getExecutionOrder wfPair.tasks = .ok ["wf_extract_text", "wf_preprocess"] ∧
    bDef.id = "wf_preprocess" ∧ aDef.id = "wf_extract_text" ∧
    "wf_preprocess" ∈ aDef.deps :=
  ⟨rfl, rfl, rfl, by decide⟩

/-- A two-task dependency cycle. -/
def cycT1 : TaskDef := { id := "t1", ttype := .preprocess, deps := ["t2"] }

/-- The other half of the cycle. -/
def cycT2 : TaskDef := { id := "t2", ttype := .extract_text, deps := ["t1"] }

/-- The cyclic workflow. -/
def wfCyc : WorkflowDef := { id := "wcyc", tasks := [cycT1, cycT2] }

theorem wfCyc_edge12 : DepEdge (depTable wfCyc.tasks) "t1" "t2" := by
  unfold DepEdge
  decide

theorem wfCyc_edge21 : DepEdge (depTable wfCyc.tasks) "t2" "t1" := by
  unfold DepEdge
  decide

theorem wfCyc_hasCycle : HasCycle wfCyc.tasks :=
  ⟨"t1", Relation.TransGen.head wfCyc_edge12 (Relation.TransGen.single wfCyc_edge21)⟩

theorem wfCyc_closed : ClosedDeps wfCyc.tasks := by
  unfold ClosedDeps
  decide

/-- C9 counterexample: the claim states the cycle error message names at
least one task id in the cycle.  On the concrete cycle t1 -> t2 -> t1 the
computation raises the ValueError with the fixed message, and neither
task id occurs in that message. -/
theorem c9_counterexample_message_names_no_task :
    getExecutionOrder wfCyc.tasks = .error .cycle ∧
    topoErrMsg .cycle = cycleMsg ∧
    strHasSub "t1" cycleMsg = false ∧
    strHasSub "t2" cycleMsg = false :=
  ⟨rfl, rfl, rfl, rfl⟩

/-- C9 amended: for every task set whose dependency ids are task ids and
which contains a dependency cycle, `_get_execution_order` raises the
circular-dependency ValueError with the fixed message (which does not name
any task id). -/
theorem c9_cycle_raises_fixed_error (tasks : List TaskDef)
    (hclosed : ClosedDeps tasks) (hcyc : HasCycle tasks) :
    getExecutionOrder tasks = .error .cycle ∧ topoErrMsg .cycle = cycleMsg :=
  ⟨getExecutionOrder_cycle_error hclosed hcyc, rfl⟩

theorem c9_witness :
    getExecutionOrder wfCyc.tasks = .error .cycle ∧ topoErrMsg .cycle = cycleMsg :=
  c9_cycle_raises_fixed_error wfCyc.tasks wfCyc_closed wfCyc_hasCycle

/-- C5: for a stored workflow whose dependency graph contains a cycle,
`execute_workflow` aborts before dispatching any task: it returns
(re-raises) the circular-dependency error, the workflow transitions to
Failed carrying that error, and every task status is still Pending. -/
theorem c5_cycle_aborts_with_all_pending (store : List (String × WorkflowDef))
    (wid : String) (wf : WorkflowDef) (hfound : alookup store wid = some wf)
    (hclosed : ClosedDeps wf.tasks) (hcyc : HasCycle wf.tasks) :
    executeWorkflowEntry store wid =
      .cycleAbort cycleMsg
        { initState wf with wstatus := .failed, werror := some cycleMsg } ∧
    (∀ t ∈ (initState wf).tasks, t.status = .pending ∧ t.result = none ∧
      t.error = none) := by
  constructor
  · simp only [executeWorkflowEntry, hfound,
      getExecutionOrder_cycle_error hclosed hcyc, topoErrMsg]
  · intro t ht
    simp only [initState, List.mem_map] at ht
    obtain ⟨td, _, rfl⟩ := ht
    exact ⟨rfl, rfl, rfl⟩

theorem c5_witness :
    executeWorkflowEntry [("wcyc", wfCyc)] "wcyc" =
      .cycleAbort cycleMsg
        { initState wfCyc with wstatus := .failed, werror := some cycleMsg } ∧
    (∀ t ∈ (initState wfCyc).tasks, t.status = .pending ∧ t.result = none ∧
      t.error = none) :=
  c5_cycle_aborts_with_all_pending [("wcyc", wfCyc)] "wcyc" wfCyc rfl
    wfCyc_closed wfCyc_hasCycle

/-- C10: for a workflow id absent from the store `get_workflow_status`
does not raise; it returns the payload whose status is the string
not_found together with the queried id, whereas `execute_workflow` raises
a ValueError naming the missing workflow. -/
theorem c10_missing_workflow_status (store : List (String × WorkflowRow))
    (store2 : List (String × WorkflowDef)) (wid : String)
    (h : alookup store wid = none) (h2 : alookup store2 wid = none) :
    getWorkflowStatus store wid =
      .dict [("workflow_id", .str wid), ("status", .str "not_found")] ∧
    executeWorkflowEntry store2 wid =
      .notFound ("Workflow not found: " ++ wid) := by
  constructor
  · unfold getWorkflowStatus
    rw [h]
  · unfold executeWorkflowEntry
    rw [h2]

theorem c10_witness :
    getWorkflowStatus [] "wf_missing" =
      .dict [("workflow_id", .str "wf_missing"), ("status", .str "not_found")] ∧
    executeWorkflowEntry [] "wf_missing" =
      .notFound ("Workflow not found: " ++ "wf_missing") :=
  c10_missing_workflow_status [] [] "wf_missing" rfl rfl

/-- C2: in every state reachable during the concurrent phase of
`execute_workflow`, the number of tasks in Running status never exceeds
the configured `max_concurrency` bound (the semaphore capacity). -/
theorem c2_running_bounded (env : Env) (wf : WorkflowDef) (s : WfState)
    (hr : Reachable env (initState wf) s) :
    countRunning s ≤ env.maxConcurrency := by
  have hinv := inv_reachable hr
  rw [countRunning_eq_numInExec hinv]
  exact hinv.exec_bound

theorem c2_witness : countRunning sW3 ≤ envW.maxConcurrency :=
  c2_running_bounded envW wfPair sW3 reach_sW3

/-- C3: in every reachable state of an execution, for every pair of tasks
where A depends on B, A is never in Running status while B is not
Completed; `Task.can_execute` is modelled from spec section 4.1 and the
check-then-mark of `_execute_task` (lines 190-197) is atomic between
asyncio await points. -/
theorem c3_never_running_before_dep_completed (env : Env) (wf : WorkflowDef)
    (s : WfState) (hnodup : (wf.tasks.map TaskDef.id).Nodup)
    (hr : Reachable env (initState wf) s) (A B : RTTask)
    (hA : A ∈ s.tasks) (hB : B ∈ s.tasks) (hdep : B.td.id ∈ A.td.deps)
    (hrun : A.status = .running) : B.status = .completed := by
  have hinv := inv_reachable hr
  have hnd : (s.tasks.map (fun t => t.td.id)).Nodup := by
    have heq : s.tasks.map (fun t => t.td.id) = wf.tasks.map TaskDef.id := by
      rw [show (fun (t : RTTask) => t.td.id) = (TaskDef.id ∘ RTTask.td) from rfl,
        ← List.map_map, reachable_tds hr]
    rw [heq]
    exact hnodup
  have hDC : DepsCompleted s.tasks A := by
    by_contra hndc
    rw [hinv.blocked_pending A hA hndc] at hrun
    exact absurd hrun (by simp)
  have hdd := hDC B.td.id hdep
  unfold depDone at hdd
  rw [findT_of_mem_nodup hnd hB] at hdd
  simpa using hdd

theorem c3_witness :
    (markCompleted (markRunning (initTask bDef)) (.dict [("text", .str "x")])).status
      = TaskStatus.completed := by
  refine c3_never_running_before_dep_completed envW wfPair sW3 (by decide) reach_sW3
    (markRunning (initTask aDef))
    (markCompleted (markRunning (initTask bDef)) (.dict [("text", .str "x")]))
    ?_ ?_ (by decide) rfl
  · exact List.mem_cons_of_mem _ (List.mem_cons_self _ _)
  · exact List.mem_cons_self _ _

/-- C4 counterexample: a complete execution in which the preprocess task
transitions to Failed and the workflow transitions to Failed, but the
dependent extract-text task remains Pending with no error: it is silently
skipped, never marked Failed with an upstream error. -/
theorem c4_counterexample_dependent_stays_pending :
    Reachable envF (initState wfPair) sF4 ∧
    allDone sF4 = true ∧ sF4.wstatus = .failed ∧
    (∃ B ∈ sF4.tasks, B.td.id = "wf_preprocess" ∧ B.status = .failed) ∧
    (∃ A ∈ sF4.tasks, A.td.id = "wf_extract_text" ∧
      "wf_preprocess" ∈ A.td.deps ∧ A.status = .pending ∧
      A.status ≠ .failed ∧ A.error = none) := by
  refine ⟨reach_sF4, by decide, rfl, ?_, ?_⟩
  · exact ⟨markFailed (markRunning (initTask bDef)) "boom",
      List.mem_cons_self _ _, rfl, rfl⟩
  · exact ⟨markSkipped (initTask aDef),
      List.mem_cons_of_mem _ (List.mem_cons_self _ _), rfl, by decide, rfl,
      by decide, rfl⟩

/-- C4 amended: when a task Fails, every task that transitively depends on
it remains Pending forever (it is silently skipped, never marked Failed
with an upstream error), and the workflow can only reach a terminal
Completed status when no task is Failed (a failure forces terminal status
Failed). -/
theorem c4_amended_failure_propagation (env : Env) (wf : WorkflowDef)
    (hnodup : (wf.tasks.map TaskDef.id).Nodup) (s : WfState)
    (hr : Reachable env (initState wf) s) :
    (∀ A B : RTTask, A ∈ s.tasks → B ∈ s.tasks → B.status = .failed →
      Relation.TransGen (TaskDepends s.tasks) A.td.id B.td.id →
      A.status = .pending) ∧
    (s.wstatus = .completed → ∀ t ∈ s.tasks, t.status ≠ .failed) :=
  ⟨fun _ _ hA hB hf hchain => failed_dep_pending hnodup hr hA hB hf hchain,
   fun hc => ((inv_reachable hr).w_completed hc).2⟩

theorem c4_witness : (markSkipped (initTask aDef)).status = TaskStatus.pending := by
  have h := c4_amended_failure_propagation envF wfPair (by decide) sF4 reach_sF4
  refine h.1 (markSkipped (initTask aDef))
    (markFailed (markRunning (initTask bDef)) "boom")
    (List.mem_cons_of_mem _ (List.mem_cons_self _ _)) (List.mem_cons_self _ _)
    rfl ?_
  exact Relation.TransGen.single ⟨markSkipped (initTask aDef),
    List.mem_cons_of_mem _ (List.mem_cons_self _ _), rfl, by decide⟩

theorem get?_set_self' {α : Type} (l : List α) (i : Nat) (a b : α)
    (h : l.get? i = some a) : (l.set i b).get? i = some b := by
  induction l generalizing i with
  | nil => simp at h
  | cons hd tl ih =>
    cases i with
    | zero => rfl
    | succ j =>
      simp only [List.get?] at h
      simp only [List.set, List.get?]
      exact ih j h

theorem get?_set_ne {α : Type} (l : List α) (i j : Nat) (b : α) (hne : i ≠ j) :
    (l.set i b).get? j = l.get? j := by
  induction l generalizing i j with
  | nil => simp [List.set]
  | cons hd tl ih =>
    cases i with
    | zero =>
      cases j with
      | zero => exact absurd rfl hne
      | succ k => rfl
    | succ i2 =>
      cases j with
      | zero => rfl
      | succ k =>
        simp only [List.set, List.get?]
        exact ih i2 k (fun hc => hne (by rw [hc]))

/-- C7 counterexample: attempting to execute a task whose dependencies are
not Completed is a silent no-op, not a fast failure: the engine step
exists, the task keeps status Pending and a nil error, and its coroutine
ends without raising. -/
theorem c7_counterexample_silent_noop :
    canExecute (initState wfPair).tasks (initTask aDef) = false ∧
    Step envF (initState wfPair) sF1 ∧
    (∃ A ∈ sF1.tasks, A.td.id = "wf_extract_text" ∧ A.status = .pending ∧
      A.error = none ∧ A.phase = .done none) := by
  refine ⟨by decide, ?_, ?_⟩
  · exact Step.skip (initState wfPair) 1 (initTask aDef) rfl rfl (by decide) (by decide)
  · exact ⟨markSkipped (initTask aDef),
      List.mem_cons_of_mem _ (List.mem_cons_self _ _), rfl, rfl, rfl, rfl⟩

/-- C7 amended: the engine only performs the transitions Pending to
Running, Running to Completed and Running to Failed (every step leaves
every other status unchanged); executing a task that cannot run is a
silent no-op step that keeps its status and error and raises nothing. -/
theorem c7_amended_legal_transitions (env : Env) (wf : WorkflowDef)
    (s : WfState) (hr : Reachable env (initState wf) s) :
    (∀ s', Step env s s' → ∀ i t t', s.tasks.get? i = some t →
      s'.tasks.get? i = some t' →
      t'.status = t.status ∨
      (t.status = .pending ∧ t'.status = .running) ∨
      (t.status = .running ∧ t'.status = .completed) ∨
      (t.status = .running ∧ t'.status = .failed)) ∧
    (∀ i t, s.tasks.get? i = some t → t.phase = .waitingSem →
      numInExec s < env.maxConcurrency → canExecute s.tasks t = false →
      Step env s (setTask s i (markSkipped t)) ∧
      (markSkipped t).status = t.status ∧ (markSkipped t).error = t.error ∧
      (markSkipped t).phase = .done none) := by
  have hinv := inv_reachable hr
  constructor
  · intro s' hstep i t t' hget hget'
    cases hstep with
    | skip j u hgj hpj hsj hcj =>
      have hget2 : (s.tasks.set j (markSkipped u)).get? i = some t' := hget'
      by_cases hij : j = i
      · subst hij
        rw [hget] at hgj
        cases hgj
        rw [get?_set_self' s.tasks j t (markSkipped t) hget] at hget2
        cases hget2
        exact Or.inl rfl
      · rw [get?_set_ne s.tasks j i (markSkipped u) hij, hget] at hget2
        cases hget2
        exact Or.inl rfl
    | start j u hgj hpj hsj hcj =>
      have hget2 : (s.tasks.set j (markRunning u)).get? i = some t' := hget'
      by_cases hij : j = i
      · subst hij
        rw [hget] at hgj
        cases hgj
        rw [get?_set_self' s.tasks j t (markRunning t) hget] at hget2
        cases hget2
        exact Or.inr (Or.inl ⟨(canExecute_iff.1 hcj).1, rfl⟩)
      · rw [get?_set_ne s.tasks j i (markRunning u) hij, hget] at hget2
        cases hget2
        exact Or.inl rfl
    | finishOk j u v hgj hpj hdj =>
      have hget2 : (s.tasks.set j (markCompleted u v)).get? i = some t' := hget'
      by_cases hij : j = i
      · subst hij
        rw [hget] at hgj
        cases hgj
        rw [get?_set_self' s.tasks j t (markCompleted t v) hget] at hget2
        cases hget2
        exact Or.inr (Or.inr (Or.inl
          ⟨(hinv.run_exec t (memOfGet hget)).2 hpj, rfl⟩))
      · rw [get?_set_ne s.tasks j i (markCompleted u v) hij, hget] at hget2
        cases hget2
        exact Or.inl rfl
    | finishErr j u e hgj hpj hdj =>
      have hget2 : (s.tasks.set j (markFailed u e)).get? i = some t' := hget'
      by_cases hij : j = i
      · subst hij
        rw [hget] at hgj
        cases hgj
        rw [get?_set_self' s.tasks j t (markFailed t e) hget] at hget2
        cases hget2
        exact Or.inr (Or.inr (Or.inr
          ⟨(hinv.run_exec t (memOfGet hget)).2 hpj, rfl⟩))
      · rw [get?_set_ne s.tasks j i (markFailed u e) hij, hget] at hget2
        cases hget2
        exact Or.inl rfl
    | finalize hdone hrun =>
      have hget2 : s.tasks.get? i = some t' := by
        rw [← applyFinal_tasks s]
        exact hget'
      rw [hget] at hget2
      cases hget2
      exact Or.inl rfl
  · intro i t hget hph hsem hcan
    exact ⟨Step.skip s i t hget hph hsem hcan, rfl, rfl, rfl⟩

theorem c7_witness :
    Step envF (initState wfPair)
      (setTask (initState wfPair) 1 (markSkipped (initTask aDef))) ∧
    (markSkipped (initTask aDef)).status = (initTask aDef).status ∧
    (markSkipped (initTask aDef)).error = (initTask aDef).error ∧
    (markSkipped (initTask aDef)).phase = .done none :=
  (c7_amended_legal_transitions envF wfPair (initState wfPair)
    Relation.ReflTransGen.refl).2 1 (initTask aDef) rfl rfl (by decide) (by decide)

/-- C6: in every execution where all tasks reach Completed, `gather`
returns normally, the workflow transitions to Completed and the value
returned by `execute_workflow` is the Completed postprocess task's result
(as read by `_get_workflow_results`). -/
theorem c6_all_completed_returns_postprocess (env : Env) (wf : WorkflowDef)
    (s : WfState) (hr : Reachable env (initState wf) s)
    (hall : ∀ t ∈ s.tasks, t.status = .completed)
    (hpp : ∃ p ∈ s.tasks, p.td.ttype = .postprocess) :
    (applyFinal s).wstatus = .completed ∧
    (∃ p ∈ s.tasks, p.td.ttype = .postprocess ∧ p.status = .completed ∧
      ∃ v, p.result = some v ∧ getWorkflowResults s = v ∧
        (applyFinal s).retval = some v) ∧
    (s.wstatus = .running → Step env s (applyFinal s)) := by
  have hinv := inv_reachable hr
  have hdone : allDone s = true := by
    unfold allDone
    rw [List.all_eq_true]
    intro t ht
    cases hp : t.phase with
    | waitingSem =>
      have hx := hinv.wait_pending t ht hp
      rw [hall t ht] at hx
      exact absurd hx (by simp)
    | inExecutor =>
      have hx := (hinv.run_exec t ht).2 hp
      rw [hall t ht] at hx
      exact absurd hx (by simp)
    | done o => simp
  have hfr : firstRaised s = none := by
    unfold firstRaised
    rw [List.findSome?_eq_none_iff]
    intro t ht
    cases hp : t.phase with
    | waitingSem => simp only [hp]
    | inExecutor => simp only [hp]
    | done o =>
      cases o with
      | none => simp only [hp]
      | some e =>
        have hx := (hinv.failed_raised t ht).2 ⟨e, hp⟩
        rw [hall t ht] at hx
        exact absurd hx (by simp)
  obtain ⟨p0, hfind⟩ : ∃ y, s.tasks.find?
      (fun t => t.td.ttype == TaskType.postprocess && t.status == TaskStatus.completed)
      = some y := by
    obtain ⟨p, hpmem, hpty⟩ := hpp
    refine Option.isSome_iff_exists.1 (List.find?_isSome.2 ⟨p, hpmem, ?_⟩)
    rw [Bool.and_eq_true, beq_iff_eq, beq_iff_eq]
    exact ⟨hpty, hall p hpmem⟩
  have hp0mem : p0 ∈ s.tasks := List.mem_of_find?_eq_some hfind
  have hp0pred := List.find?_some hfind
  rw [Bool.and_eq_true, beq_iff_eq, beq_iff_eq] at hp0pred
  obtain ⟨v, hv, hvt⟩ := hinv.completed_result p0 hp0mem hp0pred.2
  have hvtr : v.truthy = true := hvt hp0pred.1
  have hres : getWorkflowResults s = v := by
    unfold getWorkflowResults
    rw [hfind]
    simp only [hv, hvtr, if_true]
  have hres2 : getWorkflowResults { s with wstatus := TaskStatus.completed } = v := by
    unfold getWorkflowResults
    have hfind2 : ({ s with wstatus := TaskStatus.completed } : WfState).tasks.find?
        (fun t => t.td.ttype == TaskType.postprocess && t.status == TaskStatus.completed)
        = some p0 := hfind
    rw [hfind2]
    simp only [hv, hvtr, if_true]
  have happ : applyFinal s =
      { { s with wstatus := TaskStatus.completed } with
        retval := some (getWorkflowResults { s with wstatus := TaskStatus.completed }) } := by
    unfold applyFinal
    rw [hfr]
  refine ⟨by rw [happ], ⟨p0, hp0mem, hp0pred.1, hp0pred.2, v, hv, hres, ?_⟩,
    fun hrun => Step.finalize s hdone hrun⟩
  rw [happ, hres2]

theorem c6_witness :
    (applyFinal s6c12).wstatus = .completed ∧
    (∃ p ∈ s6c12.tasks, p.td.ttype = .postprocess ∧ p.status = .completed ∧
      ∃ v, p.result = some v ∧ getWorkflowResults s6c12 = v ∧
        (applyFinal s6c12).retval = some v) ∧
    (s6c12.wstatus = .running → Step env6 s6c12 (applyFinal s6c12)) := by
  refine c6_all_completed_returns_postprocess env6 wf6 s6c12 reach_s6c12
    (by decide) ?_
  exact ⟨markCompleted (markRunning (initTask pDef)) pOut,
    List.mem_cons_of_mem _ (List.mem_cons_of_mem _ (List.mem_cons_of_mem _
      (List.mem_cons_of_mem _ (List.mem_cons_of_mem _ (List.mem_cons_self _ _))))),
    rfl⟩

/-!
C8: the validation stage records data problems as soft errors/warnings.
Concrete inputs for the witness, then loop lemmas for the three
accumulator loops of `_validate_extraction_results`.
-/

/-- A document-understanding payload classifying the document as a
receipt. -/
def u8 : PyVal := .dict [("document_type", .str "receipt")]

/-- Extracted fields holding only a malformed date; the required
`total_amount` and `merchant_name` are absent. -/
def f8 : PyVal :=
  .dict [("date", .dict [("value", .str "not-a-date"), ("confidence", .num (1/2))])]

/-- No extracted tables: the required `items` table is absent. -/
def t8 : PyVal := .dict []

/-- The required `total_amount` field of the receipt template. -/
def fd8 : FieldDef := { name := "total_amount", ftype := .currency, required := true }

/-- The `date` field of the receipt template, whose value in `f8` is
malformed. -/
def fd8d : FieldDef := { name := "date", ftype := .date, required := true }

/-- The validation payload computed on `f8`/`t8`/`u8`: invalid, with two
missing-field errors, one missing-table error and one date warning. -/
def vr8 : ValidationResult :=
  { valid := false,
    errors := [reqFieldMsg "total_amount", reqFieldMsg "merchant_name",
               reqTableMsg "items"],
    warnings := [dateWarnMsg "date" "not-a-date"] }

/-- The confidence computed on `f8`/`t8`: the mean of the single entry. -/
def conf8 : Rat := ((1 : Rat)/2 + 0) / 1

theorem requiredFieldsLoop_mono {f : PyVal} {l : List FieldDef}
    {acc r : ValidationResult} (h : requiredFieldsLoop f l acc = .ok r) :
    (acc.valid = false → r.valid = false) ∧ (∀ m ∈ acc.errors, m ∈ r.errors) := by
  induction l generalizing acc with
  | nil =>
    simp only [requiredFieldsLoop] at h
    cases h
    exact ⟨id, fun m hm => hm⟩
  | cons fd rest ih =>
    simp only [requiredFieldsLoop] at h
    obtain ⟨bad, hb0, hrest⟩ := ok_of_bind h
    cases bad with
    | false =>
      rw [if_neg (by simp)] at hrest
      exact ih hrest
    | true =>
      rw [if_pos rfl] at hrest
      have hih := ih hrest
      exact ⟨fun _ => hih.1 rfl,
        fun m hm => hih.2 m (List.mem_append_left _ hm)⟩

theorem requiredFieldsLoop_trigger {f : PyVal} {l : List FieldDef} {fd : FieldDef}
    {acc r : ValidationResult} (hmem : fd ∈ l)
    (hbad : requiredFieldBad f fd = .ok true)
    (h : requiredFieldsLoop f l acc = .ok r) :
    r.valid = false ∧ reqFieldMsg fd.name ∈ r.errors := by
  induction l generalizing acc with
  | nil => cases hmem
  | cons fd0 rest ih =>
    simp only [requiredFieldsLoop] at h
    obtain ⟨bad, hb0, hrest⟩ := ok_of_bind h
    rcases List.mem_cons.1 hmem with heq | hmem'
    · cases heq
      rw [hbad] at hb0
      cases hb0
      rw [if_pos rfl] at hrest
      have hmono := requiredFieldsLoop_mono hrest
      exact ⟨hmono.1 rfl, hmono.2 _ (List.mem_append_right _ (List.mem_singleton.2 rfl))⟩
    · exact ih hmem' hrest

theorem requiredTablesLoop_mono {t : PyVal} {l : List TableDef}
    {acc r : ValidationResult} (h : requiredTablesLoop t l acc = .ok r) :
    (acc.valid = false → r.valid = false) ∧ (∀ m ∈ acc.errors, m ∈ r.errors) := by
  induction l generalizing acc with
  | nil =>
    simp only [requiredTablesLoop] at h
    cases h
    exact ⟨id, fun m hm => hm⟩
  | cons td rest ih =>
    simp only [requiredTablesLoop] at h
    obtain ⟨bad, hb0, hrest⟩ := ok_of_bind h
    cases bad with
    | false =>
      rw [if_neg (by simp)] at hrest
      exact ih hrest
    | true =>
      rw [if_pos rfl] at hrest
      have hih := ih hrest
      exact ⟨fun _ => hih.1 rfl,
        fun m hm => hih.2 m (List.mem_append_left _ hm)⟩

theorem typeWarningsLoop_mono {f : PyVal} {l : List FieldDef}
    {acc r : ValidationResult} (h : typeWarningsLoop f l acc = .ok r) :
    r.valid = acc.valid ∧ r.errors = acc.errors ∧
    (∀ m ∈ acc.warnings, m ∈ r.warnings) := by
  induction l generalizing acc with
  | nil =>
    simp only [typeWarningsLoop] at h
    cases h
    exact ⟨rfl, rfl, fun m hm => hm⟩
  | cons fd rest ih =>
    simp only [typeWarningsLoop] at h
    obtain ⟨wo, hw0, hrest⟩ := ok_of_bind h
    cases wo with
    | none => exact ih hrest
    | some msg =>
      have hih := ih hrest
      exact ⟨hih.1, hih.2.1,
        fun m hm => hih.2.2 m (List.mem_append_left _ hm)⟩

theorem typeWarningsLoop_trigger {f : PyVal} {l : List FieldDef} {fd : FieldDef}
    {w : String} {acc r : ValidationResult} (hmem : fd ∈ l)
    (htw : typeWarning f fd = .ok (some w))
    (h : typeWarningsLoop f l acc = .ok r) :
    w ∈ r.warnings := by
  induction l generalizing acc with
  | nil => cases hmem
  | cons fd0 rest ih =>
    simp only [typeWarningsLoop] at h
    obtain ⟨wo, hw0, hrest⟩ := ok_of_bind h
    rcases List.mem_cons.1 hmem with heq | hmem'
    · cases heq
      rw [htw] at hw0
      cases hw0
      exact (typeWarningsLoop_mono hrest).2.2 _
        (List.mem_append_right _ (List.mem_singleton.2 rfl))
    · exact ih hmem' hrest

/-- C8: validation failures found in the data are soft.  A required field
that is missing or empty turns `valid` to `False` and appends its error
message; a malformed typed value appends its warning; the validation
payload with `valid = False` is still wrapped by
`_execute_validate_results_task` into an `ok` combined result (the task
Completes) whenever the reasoning-engine result is falsy or its call
raises; and the six-task workflow run ends Completed with
`validation.valid = false` in the returned results. -/
theorem c8_validation_is_soft (ext : ExtResult) (f t u : PyVal)
    (fd fd2 : FieldDef) (w : String) (vr : ValidationResult) (conf : Rat)
    (hfd : fd ∈ getFieldsToExtract u)
    (hbad : requiredFieldBad f fd = .ok true)
    (hfd2 : fd2 ∈ getFieldsToExtract u)
    (htw : typeWarning f fd2 = .ok (some w))
    (hval : validateExtractionResults f t u = .ok vr)
    (hconf : calcConfidence f t = .ok conf)
    (hfb : (∃ e, ext = .raise e) ∨ (∃ v, ext = .value v ∧ v.truthy = false)) :
    (vr.valid = false ∧ reqFieldMsg fd.name ∈ vr.errors ∧ w ∈ vr.warnings) ∧
    executeValidateCore ext f t u = .ok (mkCombined u f t (vToPy vr) conf) ∧
    pyGet (pyGet (mkCombined u f t (vToPy vr) conf) "validation") "valid" =
      .bool vr.valid ∧
    (Reachable env6 (initState wf6) s6F ∧ s6F.wstatus = .completed ∧
      ∃ r, s6F.retval = some r ∧
        pyGet (pyGet r "validation") "valid" = .bool false) := by
  have hval0 := hval
  simp only [validateExtractionResults] at hval0
  obtain ⟨acc1, h1, hval0⟩ := ok_of_bind hval0
  obtain ⟨ttx, h2, hval0⟩ := ok_of_bind hval0
  obtain ⟨acc2, h3, hval0⟩ := ok_of_bind hval0
  have htrig := requiredFieldsLoop_trigger hfd hbad h1
  have htmono := requiredTablesLoop_mono h3
  have hwmono := typeWarningsLoop_mono hval0
  have hvfalse : vr.valid = false := by
    rw [hwmono.1]
    exact htmono.1 htrig.1
  have herr : reqFieldMsg fd.name ∈ vr.errors := by
    rw [hwmono.2.1]
    exact htmono.2 _ htrig.2
  have hwarn : w ∈ vr.warnings := typeWarningsLoop_trigger hfd2 htw hval0
  have hcore : executeValidateCore ext f t u =
      .ok (mkCombined u f t (vToPy vr) conf) := by
    rcases hfb with ⟨e, rfl⟩ | ⟨v, rfl, hv⟩
    · simp only [executeValidateCore, Bind.bind, Except.bind, hval, hconf,
        pure, Except.pure]
    · simp only [executeValidateCore, Bind.bind, Except.bind, hv,
        Bool.false_eq_true, if_false, hval, hconf, pure, Except.pure]
  refine ⟨⟨hvfalse, herr, hwarn⟩, hcore, ?_, reach_s6F, rfl, _, rfl, rfl⟩
  rfl

theorem c8_witness :
    (vr8.valid = false ∧ reqFieldMsg "total_amount" ∈ vr8.errors ∧
      dateWarnMsg "date" "not-a-date" ∈ vr8.warnings) ∧
    executeValidateCore (.value .pnone) f8 t8 u8 =
      .ok (mkCombined u8 f8 t8 (vToPy vr8) conf8) ∧
    pyGet (pyGet (mkCombined u8 f8 t8 (vToPy vr8) conf8) "validation") "valid" =
      .bool vr8.valid ∧
    (Reachable env6 (initState wf6) s6F ∧ s6F.wstatus = .completed ∧
      ∃ r, s6F.retval = some r ∧
        pyGet (pyGet r "validation") "valid" = .bool false) :=
  c8_validation_is_soft (.value .pnone) f8 t8 u8 fd8 fd8d
    (dateWarnMsg "date" "not-a-date") vr8 conf8
    (by decide) rfl (by decide) rfl rfl rfl (Or.inr ⟨.pnone, rfl, rfl⟩)
